import Mathlib

/- Verification of the strongly-typed-env declaration parser.
   The definitions below are shallow embeddings of the TypeScript sources
   (src/types.ts, src/lexer.ts and the recursive-descent parser module):
   strings are lists of characters / Lean strings, JavaScript numbers are
   modelled as exact rationals extended with infinities and NaN, and
   fallible code returns Except. -/

namespace STEnv

/-- JavaScript word character, the regex class backslash-w: A-Z, a-z, 0-9, underscore. -/
def isWordChar (c : Char) : Bool :=
  ('A' ≤ c && c ≤ 'Z') || ('a' ≤ c && c ≤ 'z') || ('0' ≤ c && c ≤ '9') || c = '_'

/-- ASCII decimal digit. -/
def isDigitChar (c : Char) : Bool := '0' ≤ c && c ≤ '9'

/-- ASCII letter, the tokenizer's isAlpha test. -/
def isAlphaChar (c : Char) : Bool := ('A' ≤ c && c ≤ 'Z') || ('a' ≤ c && c ≤ 'z')

/-- Whitespace as used by JavaScript trim and the regex class backslash-s
    (restricted to the ASCII whitespace characters, which are the only ones
    relevant to the parsed declaration files). -/
def isSpaceChar (c : Char) : Bool :=
  c = ' ' || c = '\t' || c = '\n' || c = '\r' || c = Char.ofNat 11 || c = Char.ofNat 12

/-- JavaScript String.prototype.trim on a character list. -/
def trimChars (l : List Char) : List Char :=
  ((l.dropWhile isSpaceChar).reverse.dropWhile isSpaceChar).reverse

/-- JavaScript String.prototype.split with a single-character separator. -/
def splitOnChar (sep : Char) : List Char → List (List Char)
  | [] => [[]]
  | c :: rest =>
    if c = sep then [] :: splitOnChar sep rest
    else
      match splitOnChar sep rest with
      | [] => [[c]]
      | h :: t => (c :: h) :: t

/-- Value of a list of decimal digit characters read left to right. -/
def digitsToNat (l : List Char) : Nat :=
  l.foldl (fun a c => 10 * a + (c.toNat - 48)) 0

/-- A JavaScript number: an exact finite rational, an infinity, or NaN.
    (The float64 rounding of finite values is not modelled; all claims below
    concern only which values are produced, not their rounded magnitudes.) -/
inductive JsNum where
  | finite : ℚ → JsNum
  | posInf : JsNum
  | negInf : JsNum
  | nan : JsNum
deriving DecidableEq, Repr

/-- Negation of a JavaScript number. -/
def JsNum.neg : JsNum → JsNum
  | .finite q => .finite (-q)
  | .posInf => .negInf
  | .negInf => .posInf
  | .nan => .nan

/-- Exact value of a decimal literal with integer digits, fraction digits and
    a signed decimal exponent. -/
def decimalValue (ds fs : List Char) (ex : Int) : ℚ :=
  ((digitsToNat ds : ℚ) + (digitsToNat fs : ℚ) / (10 : ℚ) ^ fs.length) * (10 : ℚ) ^ ex

/-- Parse the exponent suffix of a JavaScript decimal literal; the whole rest
    of the input must be consumed. Empty input means exponent zero. -/
def parseExp : List Char → Option Int
  | [] => some 0
  | c :: rest =>
    if c = 'e' || c = 'E' then
      match rest with
      | '+' :: ds => if !ds.isEmpty && ds.all isDigitChar then some (digitsToNat ds) else none
      | '-' :: ds => if !ds.isEmpty && ds.all isDigitChar then some (-(digitsToNat ds : Int)) else none
      | ds => if !ds.isEmpty && ds.all isDigitChar then some (digitsToNat ds) else none
    else none

/-- Parse an unsigned StrDecimalLiteral (ECMAScript ToNumber grammar):
    Infinity, or decimal digits with optional fraction and exponent. -/
def parseUnsignedDec (l : List Char) : Option JsNum :=
  if l = "Infinity".data then some .posInf
  else
    let ds := l.takeWhile isDigitChar
    let r1 := l.dropWhile isDigitChar
    let fr : Option (List Char × List Char) :=
      match r1 with
      | '.' :: r => some (r.takeWhile isDigitChar, r.dropWhile isDigitChar)
      | _ => none
    let fs := match fr with | some p => p.1 | none => []
    let r2 := match fr with | some p => p.2 | none => r1
    if ds.isEmpty && fs.isEmpty then none
    else
      match parseExp r2 with
      | some ex => some (.finite (decimalValue ds fs ex))
      | none => none

/-- Digit value in a given radix, for hex / octal / binary literals. -/
def radixDigitVal (radix : Nat) (c : Char) : Option Nat :=
  let v :=
    if '0' ≤ c && c ≤ '9' then some (c.toNat - 48)
    else if 'a' ≤ c && c ≤ 'f' then some (c.toNat - 87)
    else if 'A' ≤ c && c ≤ 'F' then some (c.toNat - 55)
    else none
  match v with
  | some n => if n < radix then some n else none
  | none => none

/-- Value of a non-empty run of digits in the given radix. -/
def parseRadix (radix : Nat) (l : List Char) : Option Nat :=
  if l.isEmpty then none
  else
    l.foldl
      (fun acc c =>
        match acc, radixDigitVal radix c with
        | some a, some d => some (radix * a + d)
        | _, _ => none)
      (some 0)

/-- Signed decimal part of the ToNumber string grammar. -/
def signedDec (l : List Char) : Option JsNum :=
  match l with
  | c :: rest =>
    if c = '+' then parseUnsignedDec rest
    else if c = '-' then (parseUnsignedDec rest).map JsNum.neg
    else parseUnsignedDec (c :: rest)
  | [] => parseUnsignedDec []

/-- StrNumericLiteral: a hex / octal / binary integer literal (no sign), or a
    signed decimal literal. -/
def parseStrNumeric (l : List Char) : Option JsNum :=
  match l with
  | c1 :: c2 :: rest =>
    if c1 = '0' && (c2 = 'x' || c2 = 'X') then (parseRadix 16 rest).map (fun n => .finite n)
    else if c1 = '0' && (c2 = 'o' || c2 = 'O') then (parseRadix 8 rest).map (fun n => .finite n)
    else if c1 = '0' && (c2 = 'b' || c2 = 'B') then (parseRadix 2 rest).map (fun n => .finite n)
    else signedDec (c1 :: c2 :: rest)
  | _ => signedDec l

/-- The JavaScript Number() conversion applied to a string: trim whitespace,
    empty means zero, otherwise parse as StrNumericLiteral, else NaN. -/
def jsToNumber (s : String) : JsNum :=
  let t := trimChars s.data
  if t.isEmpty then .finite 0
  else
    match parseStrNumeric t with
    | some n => n
    | none => .nan

/-- A runtime environment value: the payloads produced by the coercion stage
    and by JSON parsing (null can appear inside JSON results). -/
inductive EnvValue where
  | str : String → EnvValue
  | num : JsNum → EnvValue
  | boolean : Bool → EnvValue
  | arr : List EnvValue → EnvValue
  | obj : List (String × EnvValue) → EnvValue
  | null : EnvValue

/-- JavaScript property assignment on an object modelled as an association
    list: an existing key keeps its position and gets the new value, a new key
    is appended. -/
def jsObjInsert (l : List (String × EnvValue)) (k : String) (v : EnvValue) :
    List (String × EnvValue) :=
  if l.any (fun p => p.1 = k) then l.map (fun p => if p.1 = k then (k, v) else p)
  else l ++ [(k, v)]

/-- JSON whitespace. -/
def jsonWs (c : Char) : Bool := c = ' ' || c = '\t' || c = '\n' || c = '\r'

/-- Hexadecimal digit value for JSON unicode escapes. -/
def hexVal (c : Char) : Option Nat := radixDigitVal 16 c

/-- Body of a JSON string after the opening quote: processes escapes and stops
    at the closing quote, returning the decoded content and the rest. -/
def jsonStringBody (fuel : Nat) (l : List Char) : Option (List Char × List Char) :=
  match fuel with
  | 0 => none
  | fuel + 1 =>
    match l with
    | [] => none
    | c :: rest =>
      if c = '"' then some ([], rest)
      else if c = '\\' then
        match rest with
        | [] => none
        | e :: rest2 =>
          let esc : Option (Char × List Char) :=
            if e = '"' then some ('"', rest2)
            else if e = '\\' then some ('\\', rest2)
            else if e = '/' then some ('/', rest2)
            else if e = 'b' then some (Char.ofNat 8, rest2)
            else if e = 'f' then some (Char.ofNat 12, rest2)
            else if e = 'n' then some ('\n', rest2)
            else if e = 'r' then some ('\r', rest2)
            else if e = 't' then some ('\t', rest2)
            else if e = 'u' then
              match rest2 with
              | a :: b :: c2 :: d :: rest3 =>
                match hexVal a, hexVal b, hexVal c2, hexVal d with
                | some va, some vb, some vc, some vd =>
                  some (Char.ofNat (va * 4096 + vb * 256 + vc * 16 + vd), rest3)
                | _, _, _, _ => none
              | _ => none
            else none
          match esc with
          | some (ch, r) =>
            match jsonStringBody fuel r with
            | some (s, r2) => some (ch :: s, r2)
            | none => none
          | none => none
      else
        match jsonStringBody fuel rest with
        | some (s, r2) => some (c :: s, r2)
        | none => none

/-- Integer part of a JSON number: 0, or a nonzero digit followed by digits. -/
def jsonIntPart : List Char → Option (List Char × List Char)
  | [] => none
  | c :: r =>
    if c = '0' then some (['0'], r)
    else if '1' ≤ c && c ≤ '9' then some (c :: r.takeWhile isDigitChar, r.dropWhile isDigitChar)
    else none

/-- A JSON number literal, returning its exact rational value and the rest. -/
def jsonNumber (l : List Char) : Option (ℚ × List Char) :=
  let (neg, l1) := match l with | '-' :: r => (true, r) | _ => (false, l)
  match jsonIntPart l1 with
  | none => none
  | some (ds, r1) =>
    let fr : Option (List Char × List Char) :=
      match r1 with
      | '.' :: r =>
        if (r.takeWhile isDigitChar).isEmpty then none
        else some (r.takeWhile isDigitChar, r.dropWhile isDigitChar)
      | _ => some ([], r1)
    match fr with
    | none => none
    | some (fs, r2) =>
      let ex : Option (Int × List Char) :=
        match r2 with
        | c :: r3 =>
          if c = 'e' || c = 'E' then
            match r3 with
            | '+' :: r4 =>
              if (r4.takeWhile isDigitChar).isEmpty then none
              else some ((digitsToNat (r4.takeWhile isDigitChar) : Int), r4.dropWhile isDigitChar)
            | '-' :: r4 =>
              if (r4.takeWhile isDigitChar).isEmpty then none
              else some (-(digitsToNat (r4.takeWhile isDigitChar) : Int), r4.dropWhile isDigitChar)
            | r4 =>
              if (r4.takeWhile isDigitChar).isEmpty then none
              else some ((digitsToNat (r4.takeWhile isDigitChar) : Int), r4.dropWhile isDigitChar)
          else some (0, r2)
        | [] => some (0, [])
      match ex with
      | none => none
      | some (e, r5) =>
        let q := decimalValue ds fs e
        some (if neg then -q else q, r5)

mutual

/-- One JSON value (JSON.parse grammar), by fuel; returns the value and the
    unconsumed rest of the input. -/
def jsonValue (fuel : Nat) (l : List Char) : Except String (EnvValue × List Char) :=
  match fuel with
  | 0 => .error "fuel exhausted"
  | fuel + 1 =>
    let l := l.dropWhile jsonWs
    match l with
    | [] => .error "Unexpected end of JSON input"
    | c :: rest =>
      if c = '"' then
        match jsonStringBody (rest.length + 1) rest with
        | some (s, r) => .ok (.str (String.mk s), r)
        | none => .error "Unterminated string in JSON"
      else if c = '[' then jsonArrayItems fuel (rest.dropWhile jsonWs) [] true
      else if c = Char.ofNat 123 then jsonObjectItems fuel (rest.dropWhile jsonWs) [] true
      else if c = 't' && rest.take 3 = ['r', 'u', 'e'] then .ok (.boolean true, rest.drop 3)
      else if c = 'f' && rest.take 4 = ['a', 'l', 's', 'e'] then .ok (.boolean false, rest.drop 4)
      else if c = 'n' && rest.take 3 = ['u', 'l', 'l'] then .ok (.null, rest.drop 3)
      else
        match jsonNumber (c :: rest) with
        | some (q, r) => .ok (.num (.finite q), r)
        | none => .error ("Unexpected token in JSON: " ++ String.mk [c])

/-- Elements of a JSON array after the opening bracket (whitespace already
    skipped); first is true before the first element. -/
def jsonArrayItems (fuel : Nat) (l : List Char) (acc : List EnvValue) (first : Bool) :
    Except String (EnvValue × List Char) :=
  match fuel with
  | 0 => .error "fuel exhausted"
  | fuel + 1 =>
    match l with
    | [] => .error "Unexpected end of JSON input"
    | c :: rest =>
      if c = ']' && first then .ok (.arr [], rest)
      else
        match jsonValue fuel (c :: rest) with
        | .error m => .error m
        | .ok (v, r1) =>
          match r1.dropWhile jsonWs with
          | ']' :: r2 => .ok (.arr (acc ++ [v]), r2)
          | ',' :: r2 => jsonArrayItems fuel (r2.dropWhile jsonWs) (acc ++ [v]) false
          | _ => .error "Expected comma or closing bracket in JSON array"

/-- Members of a JSON object after the opening brace (whitespace already
    skipped); first is true before the first member. -/
def jsonObjectItems (fuel : Nat) (l : List Char) (acc : List (String × EnvValue))
    (first : Bool) : Except String (EnvValue × List Char) :=
  match fuel with
  | 0 => .error "fuel exhausted"
  | fuel + 1 =>
    match l with
    | [] => .error "Unexpected end of JSON input"
    | c :: rest =>
      if c = Char.ofNat 125 && first then .ok (.obj [], rest)
      else if c = '"' then
        match jsonStringBody (rest.length + 1) rest with
        | none => .error "Unterminated string in JSON"
        | some (k, r1) =>
          match r1.dropWhile jsonWs with
          | ':' :: r2 =>
            match jsonValue fuel r2 with
            | .error m => .error m
            | .ok (v, r3) =>
              let acc2 := jsObjInsert acc (String.mk k) v
              match r3.dropWhile jsonWs with
              | c2 :: r4 =>
                if c2 = Char.ofNat 125 then .ok (.obj acc2, r4)
                else if c2 = ',' then jsonObjectItems fuel (r4.dropWhile jsonWs) acc2 false
                else .error "Expected comma or closing brace in JSON object"
              | [] => .error "Unexpected end of JSON input"
          | _ => .error "Expected colon in JSON object"
      else .error "Expected string key in JSON object"

end

/-- JSON.parse on a string: one value, then only whitespace may remain. -/
def jsonParse (s : String) : Except String EnvValue :=
  match jsonValue (s.length + 1) s.data with
  | .error m => .error m
  | .ok (v, rest) =>
    if (rest.dropWhile jsonWs).isEmpty then .ok v
    else .error "Unexpected non-whitespace character after JSON value"

/-- The replace of the leading-or-trailing-quote regex: remove one leading
    double quote if present, then one trailing double quote if present. -/
def stripQuotationMarks (l : List Char) : List Char :=
  let l1 := if l.head? = some '"' then l.tail else l
  if l1.getLast? = some '"' then l1.dropLast else l1

/-- Converts a raw string value to the declared type, as the source function
    of the same name does: a switch on the type keyword with NUMBER via
    Number() and an isNaN check, STRING via quote stripping, BOOL via
    lower-cased comparison, ARRAY / OBJ via JSON.parse plus a shape check. -/
def typeImplication (varType : String) (value : String) : Except String EnvValue :=
  if varType = "NUMBER" then
    match jsToNumber value with
    | .nan => .error ("Invalid number value: " ++ value)
    | n => .ok (.num n)
  else if varType = "STRING" then .ok (.str (String.mk (stripQuotationMarks value.data)))
  else if varType = "BOOL" then
    let lower := String.mk (value.data.map Char.toLower)
    if lower = "true" then .ok (.boolean true)
    else if lower = "false" then .ok (.boolean false)
    else .error ("Invalid boolean value: " ++ value)
  else if varType = "ARRAY" then
    match jsonParse value with
    | .error m => .error m
    | .ok v =>
      match v with
      | .arr a => .ok (.arr a)
      | _ => .error ("Value is not an array: " ++ value)
  else if varType = "OBJ" then
    match jsonParse value with
    | .error m => .error m
    | .ok v =>
      match v with
      | .obj o => .ok (.obj o)
      | _ => .error ("Value is not an object: " ++ value)
  else .error ("Invalid variable type: " ++ varType)

/-- The line-shape regex of parseEnvFile: word characters, whitespace, word
    characters, optional whitespace, an equals sign, then anything. Matching
    is deterministic because the three character classes are disjoint. -/
def matchesShape (l : List Char) : Bool :=
  let w1 := l.takeWhile isWordChar
  let r1 := l.dropWhile isWordChar
  let ws := r1.takeWhile isSpaceChar
  let r2 := r1.dropWhile isSpaceChar
  let w2 := r2.takeWhile isWordChar
  let r3 := r2.dropWhile isWordChar
  let r4 := r3.dropWhile isSpaceChar
  !w1.isEmpty && !ws.isEmpty && !w2.isEmpty &&
    (match r4 with | '=' :: _ => true | _ => false)

/-- The variable-naming regex: a letter or underscore, then word characters. -/
def validName (l : List Char) : Bool :=
  match l with
  | [] => false
  | c :: rest => (isAlphaChar c || c = '_') && rest.all isWordChar

/-- findVarType: the text before the first space of the trimmed line. -/
def findVarType (t : List Char) : List Char :=
  (splitOnChar ' ' t).headD []

/-- findKey: the second space-separated piece, cut at the first equals sign
    and trimmed, validated against the naming regex. -/
def findKey (lineArray : List (List Char)) : Except String (List Char) :=
  let rawKey := trimChars ((splitOnChar '=' (lineArray.getD 1 [])).headD [])
  if validName rawKey then .ok rawKey
  else .error ("Invalid or missing variable name: " ++ String.mk rawKey)

/-- findValue: everything after the first equals sign of the line, rejoined on
    equals signs and trimmed. -/
def findValue (t : List Char) : List Char :=
  trimChars (List.intercalate ['='] ((splitOnChar '=' t).drop 1))

/-- One successfully parsed declaration. -/
structure ParsedEnvVar where
  key : String
  type : String
  value : EnvValue

/-- What processing one line of the env file yields. -/
inductive LineOutcome where
  | skip : LineOutcome
  | invalid : LineOutcome
  | declared : ParsedEnvVar → LineOutcome
  | failed : String → LineOutcome

/-- True exactly on the failed outcome. -/
def LineOutcome.isFailed : LineOutcome → Bool
  | .failed _ => true
  | _ => false

/-- The per-line body of parseEnvFile: trim, skip blanks and comments, skip
    lines that fail the shape regex, otherwise extract type, key and raw
    value and coerce, any of which may fail. -/
def processLine (line : String) : LineOutcome :=
  let t := trimChars line.data
  if t.isEmpty then .skip
  else if t.head? = some '#' then .skip
  else if !matchesShape t then .invalid
  else
    let lineArray := splitOnChar ' ' t
    let varType := findVarType t
    match findKey lineArray with
    | .error m => .failed m
    | .ok key =>
      match typeImplication (String.mk varType) (String.mk (findValue t)) with
      | .error m => .failed m
      | .ok v => .declared ⟨String.mk key, String.mk varType, v⟩

/-- A diagnostic emitted while parsing: a skipped invalid line (with its
    1-based number and original text) or a duplicate key notice. -/
inductive Warning where
  | skipLine : Nat → String → Warning
  | duplicate : String → Warning
deriving DecidableEq

/-- A fail-fast parse error: the 1-based line number and the cause. -/
structure ParseError where
  line : Nat
  msg : String
deriving DecidableEq

/-- The store and diagnostics of a successful parse. -/
structure ParseResult where
  envVars : List ParsedEnvVar
  warnings : List Warning

/-- Replace the first entry whose key equals the new declaration's key, as
    findIndex plus assignment does in the source. -/
def setFirstMatch : List ParsedEnvVar → ParsedEnvVar → List ParsedEnvVar
  | [], _ => []
  | w :: rest, v => if w.key = v.key then v :: rest else w :: setFirstMatch rest v

/-- The duplicate-key policy: overwrite in place (reporting true) when the key
    exists, append otherwise. -/
def insertVar (envVars : List ParsedEnvVar) (v : ParsedEnvVar) :
    List ParsedEnvVar × Bool :=
  if envVars.any (fun w => w.key = v.key) then (setFirstMatch envVars v, true)
  else (envVars ++ [v], false)

/-- The forEach loop of parseEnvFile over the remaining lines, carrying the
    0-based index of the next line, the store and the warnings so far. -/
def parseLinesAux : List String → Nat → List ParsedEnvVar → List Warning →
    Except ParseError ParseResult
  | [], _, vars, ws => .ok ⟨vars, ws⟩
  | l :: rest, n, vars, ws =>
    match processLine l with
    | .skip => parseLinesAux rest (n + 1) vars ws
    | .invalid => parseLinesAux rest (n + 1) vars (ws ++ [.skipLine (n + 1) l])
    | .failed m => .error ⟨n + 1, m⟩
    | .declared v =>
      match insertVar vars v with
      | (vars2, true) => parseLinesAux rest (n + 1) vars2 (ws ++ [.duplicate v.key])
      | (vars2, false) => parseLinesAux rest (n + 1) vars2 ws

/-- parseEnvFile on the list of lines of the file text. -/
def parseLines (lines : List String) : Except ParseError ParseResult :=
  parseLinesAux lines 0 [] []

/-- parseEnvFile on the raw file text: split on newlines, then process. -/
def parseEnvText (text : String) : Except ParseError ParseResult :=
  parseLines ((splitOnChar '\n' text.data).map String.mk)

/-- The declarations successfully produced by the individual lines, in order;
    when the parse succeeds this is exactly the stream the store was built
    from. -/
def declsOf (lines : List String) : List ParsedEnvVar :=
  lines.filterMap (fun l =>
    match processLine l with
    | .declared v => some v
    | _ => none)

/-- The config entry point over the lines of the file: reduce the store to a
    key-to-value object; on error, strict mode rethrows and lenient mode
    substitutes an empty object. -/
def configLines (strict : Bool) (lines : List String) :
    Except ParseError (List (String × EnvValue)) :=
  match parseLines lines with
  | .ok r => .ok (r.envVars.foldl (fun acc v => jsObjInsert acc v.key v.value) [])
  | .error e => if strict then .error e else .ok []

/-- The property names the JavaScript in operator finds on every plain
    object beyond its own keys: the ECMAScript Object.prototype members
    (including the __proto__ accessor). -/
def protoProps : List String :=
  ["constructor", "hasOwnProperty", "isPrototypeOf", "propertyIsEnumerable",
   "toLocaleString", "toString", "valueOf", "__defineGetter__", "__defineSetter__",
   "__lookupGetter__", "__lookupSetter__", "__proto__"]

/-- The JavaScript in operator on a plain object with the given own keys:
    true for an own key or an inherited Object.prototype member. -/
def jsIn (k : String) (ownKeys : List String) : Bool :=
  ownKeys.contains k || protoProps.contains k

/-- The keys of the schema that the in operator does not find on the
    environment object. -/
def missingKeys (env : List (String × EnvValue)) (schema : List (String × String)) :
    List String :=
  (schema.map Prod.fst).filter (fun k => !jsIn k (env.map Prod.fst))

/-- The environment keys the in operator does not find on the schema object
    (only warned about). -/
def extraKeys (env : List (String × EnvValue)) (schema : List (String × String)) :
    List String :=
  (env.map Prod.fst).filter (fun k => !jsIn k (schema.map Prod.fst))

/-- validateEnv: false when any schema key is missing from the environment,
    true otherwise; extra keys and all values are ignored for the result. -/
def validateEnv (env : List (String × EnvValue)) (schema : List (String × String)) :
    Bool :=
  (missingKeys env schema).isEmpty

/-- The scanner state of the declaration splitter: emitted statements, the
    current buffer, string mode with its opening quote, and the two nesting
    depth counters (which the source lets go negative). -/
structure LexState where
  decls : List String
  buffer : List Char
  inString : Bool
  stringChar : Option Char
  braceDepth : Int
  bracketDepth : Int
deriving Repr

/-- The splitter's initial state. -/
def initLexState : LexState := ⟨[], [], false, none, 0, 0⟩

/-- A double or single quote. -/
def isQuoteChar (c : Char) : Bool := c = '"' || c = Char.ofNat 39

/-- One character step of the declaration splitter: toggle string mode on
    quotes, collect characters inside strings, track brace and bracket
    depths, and emit the trimmed buffer on a semicolon at depth zero. -/
def lexStep (st : LexState) (c : Char) : LexState :=
  if isQuoteChar c && !st.inString then
    { st with inString := true, stringChar := some c, buffer := st.buffer ++ [c] }
  else if st.inString && st.stringChar = some c then
    { st with inString := false, stringChar := none, buffer := st.buffer ++ [c] }
  else if st.inString then { st with buffer := st.buffer ++ [c] }
  else
    let bd := st.braceDepth + (if c = Char.ofNat 123 then 1 else 0) -
      (if c = Char.ofNat 125 then 1 else 0)
    let kd := st.bracketDepth + (if c = '[' then 1 else 0) - (if c = ']' then 1 else 0)
    if c = ';' && bd = 0 && kd = 0 then
      { st with braceDepth := bd, bracketDepth := kd,
                decls := st.decls ++ [String.mk (trimChars (st.buffer ++ [c]))],
                buffer := [] }
    else { st with braceDepth := bd, bracketDepth := kd, buffer := st.buffer ++ [c] }

/-- The declaration splitter: fold the step over the input and emit any
    trailing non-blank buffer as a final statement. -/
def lexer (input : String) : List String :=
  let fin := input.data.foldl lexStep initLexState
  fin.decls ++ (if (trimChars fin.buffer).isEmpty then []
                else [String.mk (trimChars fin.buffer)])

/-- Token kinds of the statement tokenizer. -/
inductive TokenType where
  | TYPE | IDENTIFIER | EQUALS | STRING_LITERAL | NUMBER_LITERAL | BOOLEAN_LITERAL
  | L_BRACKET | R_BRACKET | L_BRACE | R_BRACE | COLON | COMMA | SEMICOLON | EOF
deriving DecidableEq, Repr

/-- A token: its kind and optional text. -/
structure Token where
  type : TokenType
  value : Option String
deriving DecidableEq, Repr

/-- The five type keywords of the declaration language. -/
def isTypeKeyword (w : List Char) : Bool :=
  w = "NUMBER".data || w = "STRING".data || w = "BOOL".data ||
    w = "ARRAY".data || w = "OBJ".data

/-- The scanning loop of tokenize over the remaining characters: skip
    whitespace, single-character symbols, a double-quoted string run (with no
    escape processing and no error when the closing quote is missing), a digit
    run, and a word run classified as keyword, boolean or identifier; any
    other character is an error. Every step consumes at least one character,
    so fuel one more than the length of the statement always suffices. -/
def tokenizeAux (fuel : Nat) (l : List Char) : Except String (List Token) :=
  match fuel with
  | 0 => .error "fuel exhausted"
  | fuel + 1 =>
    match l with
    | [] => .ok []
    | c :: rest =>
      if isSpaceChar c then tokenizeAux fuel rest
      else if c = '=' then (tokenizeAux fuel rest).map (fun ts => ⟨.EQUALS, none⟩ :: ts)
      else if c = ';' then (tokenizeAux fuel rest).map (fun ts => ⟨.SEMICOLON, none⟩ :: ts)
      else if c = Char.ofNat 123 then
        (tokenizeAux fuel rest).map (fun ts => ⟨.L_BRACE, none⟩ :: ts)
      else if c = Char.ofNat 125 then
        (tokenizeAux fuel rest).map (fun ts => ⟨.R_BRACE, none⟩ :: ts)
      else if c = '[' then (tokenizeAux fuel rest).map (fun ts => ⟨.L_BRACKET, none⟩ :: ts)
      else if c = ']' then (tokenizeAux fuel rest).map (fun ts => ⟨.R_BRACKET, none⟩ :: ts)
      else if c = ',' then (tokenizeAux fuel rest).map (fun ts => ⟨.COMMA, none⟩ :: ts)
      else if c = ':' then (tokenizeAux fuel rest).map (fun ts => ⟨.COLON, none⟩ :: ts)
      else if c = '"' then
        let s := rest.takeWhile (fun d => d ≠ '"')
        let r := (rest.dropWhile (fun d => d ≠ '"')).drop 1
        (tokenizeAux fuel r).map (fun ts => ⟨.STRING_LITERAL, some (String.mk s)⟩ :: ts)
      else if isDigitChar c then
        (tokenizeAux fuel (rest.dropWhile isDigitChar)).map
          (fun ts => ⟨.NUMBER_LITERAL, some (String.mk (c :: rest.takeWhile isDigitChar))⟩ :: ts)
      else if isAlphaChar c then
        let w := c :: rest.takeWhile isWordChar
        let tok : Token :=
          if isTypeKeyword w then ⟨.TYPE, some (String.mk w)⟩
          else if w = "true".data || w = "false".data then
            ⟨.BOOLEAN_LITERAL, some (String.mk w)⟩
          else ⟨.IDENTIFIER, some (String.mk w)⟩
        (tokenizeAux fuel (rest.dropWhile isWordChar)).map (fun ts => tok :: ts)
      else .error ("Unexpected character: " ++ String.mk [c])

/-- tokenize: scan the statement and append the end-of-input token. -/
def tokenize (s : String) : Except String (List Token) :=
  (tokenizeAux (s.data.length + 1) s.data).map (fun ts => ts ++ [⟨.EOF, none⟩])

/-- The parser's output node: declared type keyword, name and literal value. -/
structure ASTNode where
  type : String
  name : String
  value : EnvValue

/-- eat: consume one token of the expected kind or fail; reading past the end
    of the stream is also a failure, as in the source. -/
def eat (tt : TokenType) (ts : List Token) : Except String (Token × List Token) :=
  match ts with
  | [] => .error "Expected token, got undefined"
  | t :: rest => if t.type = tt then .ok (t, rest) else .error "Unexpected token type"

mutual

/-- parseLiteral: dispatch on the current token; string, number and boolean
    literals are immediate, brackets and braces start nested literals, and
    anything else is an error. -/
def parseLiteralF (fuel : Nat) (ts : List Token) : Except String (EnvValue × List Token) :=
  match fuel with
  | 0 => .error "fuel exhausted"
  | fuel + 1 =>
    match ts with
    | [] => .error "Cannot read token"
    | t :: rest =>
      match t.type with
      | .STRING_LITERAL => .ok (.str (t.value.getD "undefined"), rest)
      | .NUMBER_LITERAL => .ok (.num (jsToNumber (t.value.getD "undefined")), rest)
      | .BOOLEAN_LITERAL => .ok (.boolean (t.value = some "true"), rest)
      | .L_BRACKET =>
        match parseArrayLoopF fuel rest [] with
        | .ok (elems, r) => .ok (.arr elems, r)
        | .error m => .error m
      | .L_BRACE =>
        match parseObjectLoopF fuel rest [] with
        | .ok (o, r) => .ok (.obj o, r)
        | .error m => .error m
      | _ => .error "Unexpected literal token"

/-- The element loop of parseArray: stop when the current token is a closing
    bracket (consuming it), otherwise parse an element and consume one comma
    if present — so commas are optional and a trailing comma is allowed. -/
def parseArrayLoopF (fuel : Nat) (ts : List Token) (acc : List EnvValue) :
    Except String (List EnvValue × List Token) :=
  match fuel with
  | 0 => .error "fuel exhausted"
  | fuel + 1 =>
    match ts with
    | [] => .error "Cannot read token"
    | t :: rest =>
      if t.type = .R_BRACKET then .ok (acc, rest)
      else
        match parseLiteralF fuel (t :: rest) with
        | .error m => .error m
        | .ok (v, r1) =>
          match r1 with
          | [] => .error "Cannot read token"
          | t2 :: r2 =>
            if t2.type = .COMMA then parseArrayLoopF fuel r2 (acc ++ [v])
            else parseArrayLoopF fuel (t2 :: r2) (acc ++ [v])

/-- The member loop of parseObject: stop when the current token is a closing
    brace (consuming it), otherwise read a quoted key, a colon and a value,
    then consume one comma if present. -/
def parseObjectLoopF (fuel : Nat) (ts : List Token) (acc : List (String × EnvValue)) :
    Except String (List (String × EnvValue) × List Token) :=
  match fuel with
  | 0 => .error "fuel exhausted"
  | fuel + 1 =>
    match ts with
    | [] => .error "Cannot read token"
    | t :: rest =>
      if t.type = .R_BRACE then .ok (acc, rest)
      else
        match eat .STRING_LITERAL (t :: rest) with
        | .error m => .error m
        | .ok (keyTok, ts1) =>
          match eat .COLON ts1 with
          | .error m => .error m
          | .ok (_, ts2) =>
            match parseLiteralF fuel ts2 with
            | .error m => .error m
            | .ok (v, ts3) =>
              let acc2 := jsObjInsert acc (keyTok.value.getD "undefined") v
              match ts3 with
              | [] => .error "Cannot read token"
              | t2 :: r2 =>
                if t2.type = .COMMA then parseObjectLoopF fuel r2 acc2
                else parseObjectLoopF fuel (t2 :: r2) acc2

end

/-- parser: the parseDeclaration entry point — TYPE, IDENTIFIER, EQUALS, one
    literal, SEMICOLON. The fuel is ample because every recursion step of the
    literal parser consumes at least one token. -/
def parser (ts : List Token) : Except String ASTNode :=
  match eat .TYPE ts with
  | .error m => .error m
  | .ok (tyTok, r1) =>
    match eat .IDENTIFIER r1 with
    | .error m => .error m
    | .ok (nmTok, r2) =>
      match eat .EQUALS r2 with
      | .error m => .error m
      | .ok (_, r3) =>
        match parseLiteralF (ts.length + 1) r3 with
        | .error m => .error m
        | .ok (v, r4) =>
          match eat .SEMICOLON r4 with
          | .error m => .error m
          | .ok _ => .ok ⟨tyTok.value.getD "undefined", nmTok.value.getD "undefined", v⟩

/-- True exactly on the error case of an Except value. -/
def isErr {ε α : Type} : Except ε α → Bool
  | .error _ => true
  | .ok _ => false

/-- The keys of a list of declarations, in order. -/
def keysOf (vs : List ParsedEnvVar) : List String := vs.map ParsedEnvVar.key

/-- Keep the first occurrence of every key, in first-seen order. -/
def dedupFirst : List String → List String
  | [] => []
  | k :: rest => k :: (dedupFirst rest).filter (fun x => x ≠ k)

/-- Number of duplicate-key warnings for a given key. -/
def countDup (k : String) (ws : List Warning) : Nat :=
  (ws.filter (fun w => w = .duplicate k)).length

/-- The store built by iterated insertVar from an initial store. -/
def storeFold (vars : List ParsedEnvVar) (ds : List ParsedEnvVar) : List ParsedEnvVar :=
  ds.foldl (fun acc v => (insertVar acc v).1) vars

/-- How many insertions from the stream hit an existing key k: all of them if
    k is already in the store, all but the first otherwise. -/
def overwriteCount (vars : List ParsedEnvVar) (ds : List ParsedEnvVar) (k : String) : Nat :=
  let c := (ds.filter (fun v => v.key = k)).length
  if vars.any (fun v => v.key = k) then c else c - 1

/- ------------------------------------------------------------------ -/
/- Helper lemmas                                                       -/
/- ------------------------------------------------------------------ -/

/-- Rebuilding a string from its character list is the identity. -/
theorem mk_data : ∀ s : String, String.mk s.data = s
  | ⟨_⟩ => rfl

/-- takeWhile over a prefix of elements satisfying the predicate. -/
theorem takeWhile_append_all {α : Type} {p : α → Bool} :
    ∀ (xs l : List α), (∀ c ∈ xs, p c = true) →
      (xs ++ l).takeWhile p = xs ++ l.takeWhile p
  | [], l, _ => rfl
  | x :: xs, l, h => by
    have hx : p x = true := h x (List.mem_cons_self x xs)
    simp only [List.cons_append, List.takeWhile_cons, hx, if_true]
    rw [takeWhile_append_all xs l (fun c hc => h c (List.mem_cons_of_mem x hc))]

/-- dropWhile over a prefix of elements satisfying the predicate. -/
theorem dropWhile_append_all {α : Type} {p : α → Bool} :
    ∀ (xs l : List α), (∀ c ∈ xs, p c = true) →
      (xs ++ l).dropWhile p = l.dropWhile p
  | [], l, _ => rfl
  | x :: xs, l, h => by
    have hx : p x = true := h x (List.mem_cons_self x xs)
    simp only [List.cons_append, List.dropWhile_cons, hx, if_true]
    exact dropWhile_append_all xs l (fun c hc => h c (List.mem_cons_of_mem x hc))

/-- dropWhile is the identity when no element satisfies the predicate. -/
theorem dropWhile_eq_self_of_none {α : Type} {p : α → Bool} :
    ∀ l : List α, (∀ c ∈ l, p c = false) → l.dropWhile p = l
  | [], _ => rfl
  | x :: xs, h => by
    have hx : p x = false := h x (List.mem_cons_self x xs)
    simp [List.dropWhile_cons, hx]

/-- takeWhile is the identity when every element satisfies the predicate. -/
theorem takeWhile_eq_self_of_all {α : Type} {p : α → Bool} :
    ∀ l : List α, (∀ c ∈ l, p c = true) → l.takeWhile p = l
  | [], _ => rfl
  | x :: xs, h => by
    have hx : p x = true := h x (List.mem_cons_self x xs)
    simp only [List.takeWhile_cons, hx, if_true]
    rw [takeWhile_eq_self_of_all xs (fun c hc => h c (List.mem_cons_of_mem x hc))]

/-- dropWhile drops everything when every element satisfies the predicate. -/
theorem dropWhile_eq_nil_of_all {α : Type} {p : α → Bool} :
    ∀ l : List α, (∀ c ∈ l, p c = true) → l.dropWhile p = []
  | [], _ => rfl
  | x :: xs, h => by
    have hx : p x = true := h x (List.mem_cons_self x xs)
    simp only [List.dropWhile_cons, hx, if_true]
    exact dropWhile_eq_nil_of_all xs (fun c hc => h c (List.mem_cons_of_mem x hc))

/-- trim is the identity on lists with no whitespace characters. -/
theorem trimChars_eq_self {l : List Char} (h : ∀ c ∈ l, isSpaceChar c = false) :
    trimChars l = l := by
  unfold trimChars
  rw [dropWhile_eq_self_of_none l h]
  rw [dropWhile_eq_self_of_none l.reverse (fun c hc => h c (List.mem_reverse.mp hc))]
  exact List.reverse_reverse l

/- ------------------------------------------------------------------ -/
/- C10                                                                 -/
/- ------------------------------------------------------------------ -/

/-- C10 counterexample: a schema whose only key is toString — a name the
    naming regex accepts — validates against an empty environment, because
    the in operator finds the inherited Object.prototype member; so the
    claimed biconditional (true iff every schema key is present as a key of
    env) is false of the program. -/
theorem C10_counterexample_proto_key :
    validateEnv ([] : List (String × EnvValue)) [("toString", "STRING")] = true ∧
    "toString" ∉ (([] : List (String × EnvValue)).map Prod.fst) := by
  constructor
  · rfl
  · simp

/-- C10 (amended): validateEnv returns true exactly when the in operator
    finds every schema key on the environment object — that is, each schema
    key is an own key of env or the name of an inherited Object.prototype
    member; the stored values (and hence any extra keys' values) never
    influence the result — environments with the same key list validate
    identically against any schema, so no type checking of values happens. -/
theorem C10_validateEnv_in_semantics :
    ∀ (env : List (String × EnvValue)) (schema : List (String × String)),
      (validateEnv env schema = true ↔
        ∀ k ∈ schema.map Prod.fst, k ∈ env.map Prod.fst ∨ k ∈ protoProps) ∧
      (∀ env2 : List (String × EnvValue),
        env.map Prod.fst = env2.map Prod.fst →
        validateEnv env schema = validateEnv env2 schema) := by
  intro env schema
  constructor
  · simp only [validateEnv, missingKeys, jsIn, List.isEmpty_iff, List.filter_eq_nil_iff]
    simp
    constructor
    · intro h k x hk
      by_cases hq : ∃ y, (k, y) ∈ env
      · exact Or.inl hq
      · refine Or.inr (h k x hk ?_)
        intro y hy
        exact hq ⟨y, hy⟩
    · intro h a x ha hnone
      rcases h a x ha with h2 | h2
      · rcases h2 with ⟨y, hy⟩
        exact absurd hy (hnone y)
      · exact h2
  · intro env2 h
    simp only [validateEnv, missingKeys]
    rw [h]

/-- C10 witness: a schema key present with a differently typed value still
    validates identically, and a genuinely absent non-prototype key fails. -/
theorem C10_validateEnv_in_semantics_witness :
    (validateEnv [("PORT", .str "x"), ("EXTRA", .null)] [("PORT", "NUMBER")] =
      validateEnv [("PORT", .num (.finite 3)), ("EXTRA", .boolean true)]
        [("PORT", "NUMBER")]) ∧
    validateEnv ([] : List (String × EnvValue)) [("PORT", "NUMBER")] = false := by
  constructor
  · exact (C10_validateEnv_in_semantics [("PORT", .str "x"), ("EXTRA", .null)]
      [("PORT", "NUMBER")]).2
      [("PORT", .num (.finite 3)), ("EXTRA", .boolean true)] rfl
  · have h := (C10_validateEnv_in_semantics ([] : List (String × EnvValue))
      [("PORT", "NUMBER")]).1
    cases hv : validateEnv ([] : List (String × EnvValue)) [("PORT", "NUMBER")] with
    | false => rfl
    | true =>
      have h2 := h.mp hv "PORT" (by simp)
      rcases h2 with h3 | h3
      · simp at h3
      · simp [protoProps] at h3

/- ------------------------------------------------------------------ -/
/- C7                                                                  -/
/- ------------------------------------------------------------------ -/

/-- The STRING branch of the coercion switch. -/
theorem typeImplication_STRING (v : String) :
    typeImplication "STRING" v = .ok (.str (String.mk (stripQuotationMarks v.data))) := rfl

/-- Stripping a fully quoted list removes exactly the two outer quotes. -/
theorem stripQuotationMarks_quoted (inner : List Char) :
    stripQuotationMarks ('"' :: (inner ++ ['"'])) = inner := by
  unfold stripQuotationMarks
  simp [List.getLast?_concat, List.dropLast_concat]

/-- Stripping leaves a list alone when it neither starts nor ends with a
    quote. -/
theorem stripQuotationMarks_bare (l : List Char) (h1 : l.head? ≠ some '"')
    (h2 : l.getLast? ≠ some '"') : stripQuotationMarks l = l := by
  unfold stripQuotationMarks
  simp only [if_neg h1, if_neg h2]

/-- C7: STRING coercion strips exactly one leading and one trailing quote
    from a quoted value with no un-escaping, accepts an unquoted value
    verbatim (keeping internal whitespace), and on the line
    STRING UNQUOTED=Hello World stores the string Hello World. -/
theorem C7_string_quoting :
    (∀ inner : List Char,
      typeImplication "STRING" (String.mk ('"' :: (inner ++ ['"']))) =
        .ok (.str (String.mk inner))) ∧
    (∀ v : String, v.data.head? ≠ some '"' → v.data.getLast? ≠ some '"' →
      typeImplication "STRING" v = .ok (.str v)) ∧
    processLine "STRING UNQUOTED=Hello World" =
      .declared ⟨"UNQUOTED", "STRING", .str "Hello World"⟩ := by
  refine ⟨?_, ?_, rfl⟩
  · intro inner
    rw [typeImplication_STRING]
    have : (String.mk ('"' :: (inner ++ ['"']))).data = '"' :: (inner ++ ['"']) := rfl
    rw [this, stripQuotationMarks_quoted]
  · intro v h1 h2
    rw [typeImplication_STRING, stripQuotationMarks_bare v.data h1 h2, mk_data]

/-- C7 witness: a quoted and a bare value, concretely. -/
theorem C7_string_quoting_witness :
    typeImplication "STRING" "\"Hello World\"" = .ok (.str "Hello World") ∧
    typeImplication "STRING" "Hello World" = .ok (.str "Hello World") := by
  constructor
  · have h := C7_string_quoting.1 "Hello World".data
    exact h
  · exact C7_string_quoting.2.1 "Hello World" (by decide) (by decide)

/- ------------------------------------------------------------------ -/
/- C8                                                                  -/
/- ------------------------------------------------------------------ -/

/-- The ARRAY branch of the coercion switch. -/
theorem typeImplication_ARRAY (v : String) :
    typeImplication "ARRAY" v =
      (match jsonParse v with
       | .error m => .error m
       | .ok w =>
         match w with
         | .arr a => .ok (.arr a)
         | _ => .error ("Value is not an array: " ++ v)) := rfl

/-- The OBJ branch of the coercion switch. -/
theorem typeImplication_OBJ (v : String) :
    typeImplication "OBJ" v =
      (match jsonParse v with
       | .error m => .error m
       | .ok w =>
         match w with
         | .obj o => .ok (.obj o)
         | _ => .error ("Value is not an object: " ++ v)) := rfl

/-- C8: ARRAY coercion parses the raw text as JSON and succeeds exactly on
    arrays (propagating the parsed elements); OBJ coercion succeeds exactly
    on objects, rejecting arrays, null and all non-object results; in
    particular OBJ X=[1,2,3] and ARRAY Y with an object literal both fail. -/
theorem C8_json_shape_checks :
    (∀ v : String,
      (∀ a, jsonParse v = .ok (.arr a) → typeImplication "ARRAY" v = .ok (.arr a)) ∧
      ((∀ a, jsonParse v ≠ .ok (.arr a)) → isErr (typeImplication "ARRAY" v) = true) ∧
      (∀ o, jsonParse v = .ok (.obj o) → typeImplication "OBJ" v = .ok (.obj o)) ∧
      ((∀ o, jsonParse v ≠ .ok (.obj o)) → isErr (typeImplication "OBJ" v) = true)) ∧
    processLine "OBJ X=[1,2,3]" = .failed "Value is not an object: [1,2,3]" ∧
    processLine "ARRAY Y=\x7b\"k\":1\x7d" =
      .failed "Value is not an array: \x7b\"k\":1\x7d" := by
  refine ⟨?_, rfl, rfl⟩
  intro v
  rcases hj : jsonParse v with m | w
  · refine ⟨?_, ?_, ?_, ?_⟩
    · intro a ha
      simp at ha
    · intro _
      rw [typeImplication_ARRAY, hj]
      rfl
    · intro o ho
      simp at ho
    · intro _
      rw [typeImplication_OBJ, hj]
      rfl
  · cases w with
    | str s =>
      refine ⟨?_, ?_, ?_, ?_⟩
      · intro a ha
        simp at ha
      · intro _
        rw [typeImplication_ARRAY, hj]
        rfl
      · intro o ho
        simp at ho
      · intro _
        rw [typeImplication_OBJ, hj]
        rfl
    | num n =>
      refine ⟨?_, ?_, ?_, ?_⟩
      · intro a ha
        simp at ha
      · intro _
        rw [typeImplication_ARRAY, hj]
        rfl
      · intro o ho
        simp at ho
      · intro _
        rw [typeImplication_OBJ, hj]
        rfl
    | boolean b =>
      refine ⟨?_, ?_, ?_, ?_⟩
      · intro a ha
        simp at ha
      · intro _
        rw [typeImplication_ARRAY, hj]
        rfl
      · intro o ho
        simp at ho
      · intro _
        rw [typeImplication_OBJ, hj]
        rfl
    | null =>
      refine ⟨?_, ?_, ?_, ?_⟩
      · intro a ha
        simp at ha
      · intro _
        rw [typeImplication_ARRAY, hj]
        rfl
      · intro o ho
        simp at ho
      · intro _
        rw [typeImplication_OBJ, hj]
        rfl
    | arr a =>
      refine ⟨?_, ?_, ?_, ?_⟩
      · intro a2 ha
        injection ha with h1
        injection h1 with h2
        subst h2
        rw [typeImplication_ARRAY, hj]
      · intro h
        exact absurd rfl (h a)
      · intro o ho
        simp at ho
      · intro _
        rw [typeImplication_OBJ, hj]
        rfl
    | obj o =>
      refine ⟨?_, ?_, ?_, ?_⟩
      · intro a ha
        simp at ha
      · intro _
        rw [typeImplication_ARRAY, hj]
        rfl
      · intro o2 ho
        injection ho with h1
        injection h1 with h2
        subst h2
        rw [typeImplication_OBJ, hj]
      · intro h
        exact absurd rfl (h o)

/-- C8 witness: the null JSON value is rejected by both ARRAY and OBJ. -/
theorem C8_json_shape_checks_witness :
    isErr (typeImplication "ARRAY" "null") = true ∧
    isErr (typeImplication "OBJ" "null") = true := by
  have hn : jsonParse "null" = .ok .null := rfl
  constructor
  · refine (C8_json_shape_checks.1 "null").2.1 ?_
    intro a h
    rw [hn] at h
    simp at h
  · refine (C8_json_shape_checks.1 "null").2.2.2 ?_
    intro o h
    rw [hn] at h
    simp at h

/- ------------------------------------------------------------------ -/
/- C5                                                                  -/
/- ------------------------------------------------------------------ -/

/-- C5 counterexample: a trailing comma inside an array literal is accepted
    by the literal parser, not rejected — the full pipeline parses a
    bracketed list with a comma directly before the closing bracket into a
    one-element array. -/
theorem C5_counterexample_trailing_comma_ok :
    (tokenize "ARRAY A=[\"x\",];").bind parser =
      .ok ⟨"ARRAY", "A", .arr [.str "x"]⟩ := rfl

/-- C5 (amended): a COMMA directly followed by the closing bracket or brace
    is accepted: the element loop consumes the comma, sees the closing token
    and returns the elements collected so far, exactly as if the trailing
    comma were absent. -/
theorem C5_trailing_comma_accepted :
    (∀ (f : Nat) (acc : List EnvValue) (t : Token) (tsr rest : List Token)
        (v : EnvValue) (ct rt : Token),
      ct.type = .COMMA → rt.type = .R_BRACKET → t.type ≠ .R_BRACKET →
      parseLiteralF (f + 1) (t :: tsr) = .ok (v, ct :: rt :: rest) →
      parseArrayLoopF (f + 2) (t :: tsr) acc = .ok (acc ++ [v], rest)) ∧
    (∀ (f : Nat) (acc : List (String × EnvValue)) (t kt c1 : Token)
        (tsr ts1 ts2 rest : List Token) (v : EnvValue) (ct rt : Token),
      ct.type = .COMMA → rt.type = .R_BRACE → t.type ≠ .R_BRACE →
      eat .STRING_LITERAL (t :: tsr) = .ok (kt, ts1) →
      eat .COLON ts1 = .ok (c1, ts2) →
      parseLiteralF (f + 1) ts2 = .ok (v, ct :: rt :: rest) →
      parseObjectLoopF (f + 2) (t :: tsr) acc =
        .ok (jsObjInsert acc (kt.value.getD "undefined") v, rest)) ∧
    (tokenize "OBJ B=\x7b\"a\":\"y\",\x7d;").bind parser =
      .ok ⟨"OBJ", "B", .obj [("a", .str "y")]⟩ := by
  refine ⟨?_, ?_, rfl⟩
  · intro f acc t tsr rest v ct rt hct hrt hne hlit
    show parseArrayLoopF (f + 1 + 1) (t :: tsr) acc = .ok (acc ++ [v], rest)
    simp only [parseArrayLoopF, if_neg hne, hlit, hct]
    simp only [parseArrayLoopF, hrt]
    simp
  · intro f acc t kt c1 tsr ts1 ts2 rest v ct rt hct hrt hne heat1 heat2 hlit
    show parseObjectLoopF (f + 1 + 1) (t :: tsr) acc = _
    simp only [parseObjectLoopF, if_neg hne, heat1, heat2, hlit, hct]
    simp only [parseObjectLoopF, hrt]
    simp

/-- C5 witness: the loop lemmas applied to concrete token streams. -/
theorem C5_trailing_comma_accepted_witness :
    parseArrayLoopF 2
      [⟨.STRING_LITERAL, some "x"⟩, ⟨.COMMA, none⟩, ⟨.R_BRACKET, none⟩,
       ⟨.SEMICOLON, none⟩] [] =
      .ok ([.str "x"], [⟨.SEMICOLON, none⟩]) ∧
    parseObjectLoopF 2
      [⟨.STRING_LITERAL, some "a"⟩, ⟨.COLON, none⟩, ⟨.STRING_LITERAL, some "y"⟩,
       ⟨.COMMA, none⟩, ⟨.R_BRACE, none⟩, ⟨.SEMICOLON, none⟩] [] =
      .ok ([("a", .str "y")], [⟨.SEMICOLON, none⟩]) := by
  constructor
  · exact C5_trailing_comma_accepted.1 0 [] ⟨.STRING_LITERAL, some "x"⟩
      [⟨.COMMA, none⟩, ⟨.R_BRACKET, none⟩, ⟨.SEMICOLON, none⟩] [⟨.SEMICOLON, none⟩]
      (.str "x") ⟨.COMMA, none⟩ ⟨.R_BRACKET, none⟩ rfl rfl (by decide) rfl
  · exact C5_trailing_comma_accepted.2.1 0 [] ⟨.STRING_LITERAL, some "a"⟩
      ⟨.STRING_LITERAL, some "a"⟩ ⟨.COLON, none⟩
      [⟨.COLON, none⟩, ⟨.STRING_LITERAL, some "y"⟩, ⟨.COMMA, none⟩, ⟨.R_BRACE, none⟩,
       ⟨.SEMICOLON, none⟩]
      [⟨.COLON, none⟩, ⟨.STRING_LITERAL, some "y"⟩, ⟨.COMMA, none⟩, ⟨.R_BRACE, none⟩,
       ⟨.SEMICOLON, none⟩]
      [⟨.STRING_LITERAL, some "y"⟩, ⟨.COMMA, none⟩, ⟨.R_BRACE, none⟩, ⟨.SEMICOLON, none⟩]
      [⟨.SEMICOLON, none⟩] (.str "y") ⟨.COMMA, none⟩ ⟨.R_BRACE, none⟩
      rfl rfl (by decide) rfl rfl rfl

/- ------------------------------------------------------------------ -/
/- C6                                                                  -/
/- ------------------------------------------------------------------ -/

/-- C6 counterexample: a statement whose double quote is never closed does
    not make the tokenizer fail — it produces a STRING_LITERAL token holding
    everything up to end of input. -/
theorem C6_counterexample_unterminated_ok :
    tokenize "\"abc" = .ok [⟨.STRING_LITERAL, some "abc"⟩, ⟨.EOF, none⟩] := rfl

/-- C6 (amended): an unterminated string yields a STRING_LITERAL token
    running to end of input (with no failure), and a closed string literal
    captures the enclosed characters uncooked, with no escape processing, and
    scanning continues after the closing quote. -/
theorem C6_tokenize_strings :
    (∀ (f : Nat) (s : List Char), '"' ∉ s →
      tokenizeAux (f + 2) ('"' :: s) =
        .ok [⟨.STRING_LITERAL, some (String.mk s)⟩]) ∧
    (∀ (f : Nat) (s rest : List Char), '"' ∉ s →
      tokenizeAux (f + 1) ('"' :: (s ++ '"' :: rest)) =
        (tokenizeAux f rest).map
          (fun ts => ⟨.STRING_LITERAL, some (String.mk s)⟩ :: ts)) := by
  have hq : ∀ s : List Char, '"' ∉ s →
      ∀ c ∈ s, (fun d : Char => decide (d ≠ '"')) c = true := by
    intro s hs c hc
    simp only [ne_eq, decide_eq_true_eq]
    intro h
    exact hs (h ▸ hc)
  constructor
  · intro f s hs
    have h1 : tokenizeAux (f + 1 + 1) ('"' :: s) =
        (tokenizeAux (f + 1) ((s.dropWhile (fun d => decide (d ≠ '"'))).drop 1)).map
          (fun ts =>
            ⟨.STRING_LITERAL, some (String.mk (s.takeWhile (fun d => decide (d ≠ '"'))))⟩ :: ts) :=
      rfl
    rw [h1, dropWhile_eq_nil_of_all s (hq s hs), takeWhile_eq_self_of_all s (hq s hs)]
    rfl
  · intro f s rest hs
    have h1 : tokenizeAux (f + 1) ('"' :: (s ++ '"' :: rest)) =
        (tokenizeAux f (((s ++ '"' :: rest).dropWhile (fun d => decide (d ≠ '"'))).drop 1)).map
          (fun ts =>
            ⟨.STRING_LITERAL,
              some (String.mk ((s ++ '"' :: rest).takeWhile (fun d => decide (d ≠ '"'))))⟩ :: ts) :=
      rfl
    rw [h1, dropWhile_append_all s ('"' :: rest) (hq s hs),
      takeWhile_append_all s ('"' :: rest) (hq s hs)]
    simp only [List.takeWhile_cons, List.dropWhile_cons]
    norm_num

/-- C6 witness: the unterminated and the closed-then-continue behavior on
    concrete statements. -/
theorem C6_tokenize_strings_witness :
    tokenizeAux 2 "\"abc".data = .ok [⟨.STRING_LITERAL, some "abc"⟩] ∧
    tokenizeAux 2 "\"ab\"c".data =
      (tokenizeAux 1 ['c']).map
        (fun ts => ⟨.STRING_LITERAL, some "ab"⟩ :: ts) := by
  constructor
  · exact C6_tokenize_strings.1 0 ['a', 'b', 'c'] (by decide)
  · exact C6_tokenize_strings.2 1 ['a', 'b'] ['c'] (by decide)

/- ------------------------------------------------------------------ -/
/- C4                                                                  -/
/- ------------------------------------------------------------------ -/

set_option maxRecDepth 8000 in
/-- C4: a semicolon is a statement boundary only in a scanner state that is
    outside a string with both nesting depths zero — in any other state it
    emits nothing and is collected into the buffer — in the boundary state it
    emits the trimmed buffer; the nested example statement is emitted as one
    statement; and a non-blank trailing buffer at end of input is emitted as
    a final statement without a terminating semicolon. -/
theorem C4_splitter_boundaries :
    (∀ st : LexState,
      st.inString = true ∨ st.braceDepth ≠ 0 ∨ st.bracketDepth ≠ 0 →
      (lexStep st ';').decls = st.decls ∧
      (lexStep st ';').buffer = st.buffer ++ [';']) ∧
    (∀ st : LexState,
      st.inString = false → st.braceDepth = 0 → st.bracketDepth = 0 →
      (lexStep st ';').decls =
        st.decls ++ [String.mk (trimChars (st.buffer ++ [';']))] ∧
      (lexStep st ';').buffer = []) ∧
    lexer "ARRAY ITEMS=[\x7b\"a\": \";\", \"b\": [1,2]\x7d, \x7b\"a\": \"x\"\x7d]" =
      ["ARRAY ITEMS=[\x7b\"a\": \";\", \"b\": [1,2]\x7d, \x7b\"a\": \"x\"\x7d]"] ∧
    (∀ input : String,
      (trimChars (input.data.foldl lexStep initLexState).buffer).isEmpty = false →
      lexer input =
        (input.data.foldl lexStep initLexState).decls ++
          [String.mk (trimChars (input.data.foldl lexStep initLexState).buffer)]) := by
  refine ⟨?_, ?_, rfl, ?_⟩
  · intro st h
    unfold lexStep
    have hq : isQuoteChar ';' = false := rfl
    rcases hin : st.inString with hf | ht
    · have hb : st.braceDepth ≠ 0 ∨ st.bracketDepth ≠ 0 := by
        rcases h with h | h | h
        · rw [hin] at h
          exact absurd h (by simp)
        · exact Or.inl h
        · exact Or.inr h
      simp only [hq, hin, Bool.false_and, Bool.and_false, Bool.false_eq_true, if_false,
        Bool.not_false, Bool.and_true]
      have hsemi : (';' = Char.ofNat 123) = False := by simp
      have hsemi2 : (';' = Char.ofNat 125) = False := by simp
      have hsemi3 : (';' = '[') = False := by simp
      have hsemi4 : (';' = ']') = False := by simp
      simp only [hsemi, hsemi2, hsemi3, hsemi4, if_false, add_zero, sub_zero]
      rcases hb with hb | hb
      · rw [if_neg ?_]
        · constructor <;> rfl
        · simp [hb]
      · rw [if_neg ?_]
        · constructor <;> rfl
        · simp [hb]
    · simp only [hq, hin, Bool.false_and, Bool.false_eq_true, if_false]
      by_cases hsc : st.stringChar = some ';'
      · simp [hsc]
      · simp [hsc]
  · intro st h1 h2 h3
    unfold lexStep
    simp [h1, h2, h3, isQuoteChar]
  · intro input h
    unfold lexer
    simp [h]

/-- C4 witness: a semicolon inside a string and one inside brackets are
    buffered, a top-level one emits, and a trailing buffer is emitted at end
    of input. -/
theorem C4_splitter_boundaries_witness :
    (lexStep ⟨[], "A=\"x".data, true, some '"', 0, 0⟩ ';').decls = [] ∧
    (lexStep ⟨[], "A=[1".data, false, none, 0, 1⟩ ';').decls = [] ∧
    (lexStep ⟨[], "NUMBER A=1".data, false, none, 0, 0⟩ ';').decls = ["NUMBER A=1;"] ∧
    lexer "NUMBER A=1" = ["NUMBER A=1"] := by
  refine ⟨?_, ?_, ?_, ?_⟩
  · exact ((C4_splitter_boundaries.1 ⟨[], "A=\"x".data, true, some '"', 0, 0⟩)
      (Or.inl rfl)).1
  · exact ((C4_splitter_boundaries.1 ⟨[], "A=[1".data, false, none, 0, 1⟩)
      (Or.inr (Or.inr (by decide)))).1
  · have h := ((C4_splitter_boundaries.2.1 ⟨[], "NUMBER A=1".data, false, none, 0, 0⟩)
      rfl rfl rfl).1
    rw [h]
    rfl
  · have h := C4_splitter_boundaries.2.2.2 "NUMBER A=1" (by decide)
    rw [h]
    rfl

/- ------------------------------------------------------------------ -/
/- C3                                                                  -/
/- ------------------------------------------------------------------ -/

/-- A digit character differs from every non-digit character. -/
theorem digitChar_ne (c : Char) (h : isDigitChar c = true) (d : Char)
    (hd : isDigitChar d = false) : c ≠ d := by
  intro heq
  rw [heq, hd] at h
  exact Bool.noConfusion h

/-- Digit characters are not whitespace. -/
theorem digit_not_space (c : Char) (h : isDigitChar c = true) : isSpaceChar c = false := by
  have h1 := digitChar_ne c h ' ' (by decide)
  have h2 := digitChar_ne c h '\t' (by decide)
  have h3 := digitChar_ne c h '\n' (by decide)
  have h4 := digitChar_ne c h '\r' (by decide)
  have h5 := digitChar_ne c h (Char.ofNat 11) (by decide)
  have h6 := digitChar_ne c h (Char.ofNat 12) (by decide)
  simp [isSpaceChar, h1, h2, h3, h4, h5, h6]

/-- When the second character is a digit or a dot, the radix branches of the
    numeric-literal parser do not fire. -/
theorem parseStrNumeric_eq_signedDec (l : List Char)
    (h : ∀ c1 c2 r, l = c1 :: c2 :: r → (isDigitChar c2 = true ∨ c2 = '.')) :
    parseStrNumeric l = signedDec l := by
  match l with
  | [] => rfl
  | [c] => rfl
  | c1 :: c2 :: r =>
    have h2 := h c1 c2 r rfl
    have hx : c2 ≠ 'x' ∧ c2 ≠ 'X' ∧ c2 ≠ 'o' ∧ c2 ≠ 'O' ∧ c2 ≠ 'b' ∧ c2 ≠ 'B' := by
      rcases h2 with hdig | hdot
      · exact ⟨digitChar_ne c2 hdig 'x' (by decide), digitChar_ne c2 hdig 'X' (by decide),
          digitChar_ne c2 hdig 'o' (by decide), digitChar_ne c2 hdig 'O' (by decide),
          digitChar_ne c2 hdig 'b' (by decide), digitChar_ne c2 hdig 'B' (by decide)⟩
      · subst hdot
        refine ⟨by decide, by decide, by decide, by decide, by decide, by decide⟩
    obtain ⟨hx1, hx2, hx3, hx4, hx5, hx6⟩ := hx
    unfold parseStrNumeric
    simp [hx1, hx2, hx3, hx4, hx5, hx6]

/-- A list starting with a digit goes through the unsigned decimal parser. -/
theorem signedDec_digit_head (c : Char) (rest : List Char) (h : isDigitChar c = true) :
    signedDec (c :: rest) = parseUnsignedDec (c :: rest) := by
  show (if c = '+' then parseUnsignedDec rest
    else if c = '-' then (parseUnsignedDec rest).map JsNum.neg
    else parseUnsignedDec (c :: rest)) = parseUnsignedDec (c :: rest)
  rw [if_neg (digitChar_ne c h '+' (by decide)),
    if_neg (digitChar_ne c h '-' (by decide))]

/-- The unsigned decimal parser on digits with an optional fraction part:
    no exponent, exact value. -/
theorem parseUnsignedDec_decimal (ds fs : List Char) (hds : ds ≠ [])
    (hd : ∀ c ∈ ds, isDigitChar c = true) (hf : ∀ c ∈ fs, isDigitChar c = true) :
    parseUnsignedDec (ds ++ (if fs.isEmpty then [] else '.' :: fs)) =
      some (.finite (decimalValue ds fs 0)) := by
  have hnotInf : ds ++ (if fs.isEmpty then [] else '.' :: fs) ≠ "Infinity".data := by
    match ds, hds with
    | d :: ds2, _ =>
      intro heq
      rw [List.cons_append] at heq
      have hdI : d = 'I' := (List.cons.injEq _ _ _ _ ▸ heq).1
      have := hd d (List.mem_cons_self d ds2)
      rw [hdI] at this
      exact Bool.noConfusion this
  have hdsEmpty : ds.isEmpty = false := by
    match ds, hds with
    | d :: ds2, _ => rfl
  rcases hfe : fs.isEmpty with hfalse | htrue
  · -- fs is nonempty: a dot and the fraction digits follow
    have hfs : fs ≠ [] := by
      intro h
      rw [h] at hfe
      exact Bool.noConfusion hfe
    unfold parseUnsignedDec
    rw [if_neg ?notinf]
    case notinf =>
      rw [hfe] at hnotInf
      simpa using hnotInf
    simp only [Bool.false_eq_true, if_false]
    simp [takeWhile_append_all ds ('.' :: fs) hd, dropWhile_append_all ds ('.' :: fs) hd,
      takeWhile_eq_self_of_all fs hf, dropWhile_eq_nil_of_all fs hf, hdsEmpty, parseExp,
      show isDigitChar '.' = false from by decide]
  · -- fs is empty: just the digits
    have hfs : fs = [] := by
      cases fs with
      | nil => rfl
      | cons a b => exact Bool.noConfusion hfe
    subst hfs
    unfold parseUnsignedDec
    rw [if_neg ?notinf2]
    case notinf2 =>
      rw [hfe] at hnotInf
      simpa using hnotInf
    simp [takeWhile_eq_self_of_all ds hd, dropWhile_eq_nil_of_all ds hd, hdsEmpty, parseExp]

/-- The exponent-zero decimal value. -/
theorem decimalValue_zero (ds fs : List Char) :
    decimalValue ds fs 0 =
      (digitsToNat ds : ℚ) + (digitsToNat fs : ℚ) / (10 : ℚ) ^ fs.length := by
  unfold decimalValue
  rw [zpow_zero, mul_one]

/-- The Number() conversion on a signed, optionally fractional decimal
    numeral returns exactly the denoted rational. -/
theorem jsToNumber_decimal (sgn : Option Char) (ds fs : List Char)
    (hs : sgn = none ∨ sgn = some '+' ∨ sgn = some '-') (hds : ds ≠ [])
    (hd : ∀ c ∈ ds, isDigitChar c = true) (hf : ∀ c ∈ fs, isDigitChar c = true) :
    jsToNumber (String.mk (sgn.toList ++ (ds ++ (if fs.isEmpty then [] else '.' :: fs)))) =
      .finite ((if sgn = some '-' then (-1 : ℚ) else 1) * decimalValue ds fs 0) := by
  cases ds with
  | nil => exact absurd rfl hds
  | cons d ds2 =>
  set tail := (if fs.isEmpty then [] else '.' :: fs) with htail
  have hdd : isDigitChar d = true := hd d (List.mem_cons_self d ds2)
  have htailchars : ∀ c ∈ tail, c = '.' ∨ isDigitChar c = true := by
    intro c hc
    rw [htail] at hc
    rcases hfe : fs.isEmpty with hfalse | htrue
    · rw [hfe] at hc
      simp only [Bool.false_eq_true, if_false] at hc
      rcases List.mem_cons.mp hc with h | h
      · exact Or.inl h
      · exact Or.inr (hf c h)
    · rw [hfe] at hc
      simp at hc
  have hnospace : ∀ c ∈ sgn.toList ++ ((d :: ds2) ++ tail), isSpaceChar c = false := by
    intro c hc
    rcases List.mem_append.mp hc with h | h
    · rcases hs with h2 | h2 | h2 <;> rw [h2] at h <;> simp at h
      · rw [h]
        decide
      · rw [h]
        decide
    · rcases List.mem_append.mp h with h3 | h3
      · exact digit_not_space c (hd c h3)
      · rcases htailchars c h3 with h4 | h4
        · rw [h4]
          decide
        · exact digit_not_space c h4
  have hcond : ∀ c1 c2 r, (d :: ds2) ++ tail = c1 :: c2 :: r →
      (isDigitChar c2 = true ∨ c2 = '.') := by
    cases ds2 with
    | nil =>
      intro c1 c2 r heq
      rcases hfe : fs.isEmpty with hfalse | htrue
      · rw [htail, hfe] at heq
        simp only [Bool.false_eq_true, if_false, List.cons_append, List.nil_append] at heq
        injection heq with hh ht
        injection ht with hh2 ht2
        exact Or.inr hh2.symm
      · rw [htail, hfe] at heq
        simp only [if_true, List.append_nil] at heq
        injection heq with hh ht
        simp at ht
    | cons d2 ds3 =>
      intro c1 c2 r heq
      rw [List.cons_append, List.cons_append] at heq
      injection heq with hh ht
      injection ht with hh2 ht2
      exact Or.inl (hh2 ▸ hd d2 (by simp))
  have hdec : parseUnsignedDec ((d :: ds2) ++ tail) =
      some (.finite (decimalValue (d :: ds2) fs 0)) := by
    rw [htail]
    exact parseUnsignedDec_decimal (d :: ds2) fs (by simp) hd hf
  have hsd : parseStrNumeric ((d :: ds2) ++ tail) = signedDec ((d :: ds2) ++ tail) :=
    parseStrNumeric_eq_signedDec _ hcond
  have hsd2 : signedDec ((d :: ds2) ++ tail) = parseUnsignedDec ((d :: ds2) ++ tail) := by
    rw [List.cons_append]
    exact signedDec_digit_head d (ds2 ++ tail) hdd
  rcases hs with h2 | h2 | h2 <;> subst h2
  · -- no sign
    have hne : (Option.toList (none : Option Char) ++ ((d :: ds2) ++ tail)).isEmpty = false := rfl
    unfold jsToNumber
    rw [show (String.mk (Option.toList (none : Option Char) ++ ((d :: ds2) ++ tail))).data =
      Option.toList (none : Option Char) ++ ((d :: ds2) ++ tail) from rfl]
    rw [trimChars_eq_self hnospace]
    simp only [hne, Bool.false_eq_true, if_false, Option.toList, List.nil_append]
    rw [hsd, hsd2, hdec]
    simp
  · -- plus sign
    have hnospace2 : ∀ c ∈ '+' :: ((d :: ds2) ++ tail), isSpaceChar c = false := hnospace
    have hne : (('+' : Char) :: ((d :: ds2) ++ tail)).isEmpty = false := rfl
    unfold jsToNumber
    rw [show (String.mk (Option.toList (some '+') ++ ((d :: ds2) ++ tail))).data =
      ('+' : Char) :: ((d :: ds2) ++ tail) from rfl]
    rw [trimChars_eq_self hnospace2]
    simp only [hne, Bool.false_eq_true, if_false]
    have hstep : parseStrNumeric (('+' : Char) :: ((d :: ds2) ++ tail)) =
        signedDec (('+' : Char) :: ((d :: ds2) ++ tail)) := by
      apply parseStrNumeric_eq_signedDec
      intro c1 c2 r heq
      injection heq with hh ht
      rw [List.cons_append] at ht
      injection ht with hh2 ht2
      exact Or.inl (hh2 ▸ hdd)
    rw [hstep]
    have hsd3 : signedDec ('+' :: (d :: ds2 ++ tail)) = parseUnsignedDec (d :: ds2 ++ tail) := rfl
    rw [hsd3, hdec]
    simp
  · -- minus sign
    have hnospace2 : ∀ c ∈ '-' :: ((d :: ds2) ++ tail), isSpaceChar c = false := hnospace
    have hne : (('-' : Char) :: ((d :: ds2) ++ tail)).isEmpty = false := rfl
    unfold jsToNumber
    rw [show (String.mk (Option.toList (some '-') ++ ((d :: ds2) ++ tail))).data =
      ('-' : Char) :: ((d :: ds2) ++ tail) from rfl]
    rw [trimChars_eq_self hnospace2]
    simp only [hne, Bool.false_eq_true, if_false]
    have hstep : parseStrNumeric (('-' : Char) :: ((d :: ds2) ++ tail)) =
        signedDec (('-' : Char) :: ((d :: ds2) ++ tail)) := by
      apply parseStrNumeric_eq_signedDec
      intro c1 c2 r heq
      injection heq with hh ht
      rw [List.cons_append] at ht
      injection ht with hh2 ht2
      exact Or.inl (hh2 ▸ hdd)
    rw [hstep]
    have hsd3 : signedDec ('-' :: (d :: ds2 ++ tail)) =
        (parseUnsignedDec (d :: ds2 ++ tail)).map JsNum.neg := rfl
    rw [hsd3, hdec]
    simp [JsNum.neg, neg_one_mul]

/-- The NUMBER branch of the coercion switch. -/
theorem typeImplication_NUMBER (v : String) :
    typeImplication "NUMBER" v =
      (match jsToNumber v with
       | .nan => .error ("Invalid number value: " ++ v)
       | n => .ok (.num n)) := rfl

/-- C3 counterexample: the raw value Infinity parses to a non-finite number,
    yet NUMBER coercion accepts it (the code only rejects NaN), so coercion
    does not fail on every value whose parse is non-finite. -/
theorem C3_counterexample_infinity_accepted :
    typeImplication "NUMBER" "Infinity" = .ok (.num .posInf) := rfl

/-- C3 (amended): under declared type NUMBER, a signed, optionally fractional
    decimal numeral is coerced to exactly the rational it denotes (negative
    numbers and decimals round-trip), and coercion fails with the
    invalid-number error precisely when the Number() parse yields NaN —
    non-finite results such as Infinity are accepted as values. -/
theorem C3_number_coercion :
    (∀ (sgn : Option Char) (ds fs : List Char) (v : String),
      sgn = none ∨ sgn = some '+' ∨ sgn = some '-' →
      ds ≠ [] → (∀ c ∈ ds, isDigitChar c = true) → (∀ c ∈ fs, isDigitChar c = true) →
      v.data = sgn.toList ++ (ds ++ (if fs.isEmpty then [] else '.' :: fs)) →
      typeImplication "NUMBER" v =
        .ok (.num (.finite ((if sgn = some '-' then (-1 : ℚ) else 1) *
          ((digitsToNat ds : ℚ) + (digitsToNat fs : ℚ) / (10 : ℚ) ^ fs.length))))) ∧
    (∀ v : String, isErr (typeImplication "NUMBER" v) = true ↔ jsToNumber v = .nan) := by
  constructor
  · intro sgn ds fs v hs hds hd hf hveq
    have hv : v = String.mk (sgn.toList ++ (ds ++ (if fs.isEmpty then [] else '.' :: fs))) := by
      rw [← hveq, mk_data]
    rw [hv, typeImplication_NUMBER,
      jsToNumber_decimal sgn ds fs hs hds hd hf, decimalValue_zero]
  · intro v
    rw [typeImplication_NUMBER]
    cases h : jsToNumber v with
    | nan => simp [isErr]
    | finite q => simp [isErr]
    | posInf => simp [isErr]
    | negInf => simp [isErr]

/-- C3 witness: the negative decimal -3.5 coerces to its exact value, and a
    non-numeric value is rejected. -/
theorem C3_number_coercion_witness :
    typeImplication "NUMBER" "-3.5" =
      .ok (.num (.finite ((if (some '-' : Option Char) = some '-' then (-1 : ℚ) else 1) *
        ((digitsToNat ['3'] : ℚ) +
          (digitsToNat ['5'] : ℚ) / (10 : ℚ) ^ (['5'] : List Char).length)))) ∧
    isErr (typeImplication "NUMBER" "not_a_number") = true := by
  constructor
  · exact C3_number_coercion.1 (some '-') ['3'] ['5'] "-3.5"
      (Or.inr (Or.inr rfl)) (by decide) (by decide) (by decide) rfl
  · exact (C3_number_coercion.2 "not_a_number").mpr rfl

/- ------------------------------------------------------------------ -/
/- C9                                                                  -/
/- ------------------------------------------------------------------ -/

/-- findKey only returns names accepted by the naming regex. -/
theorem findKey_ok_valid (la : List (List Char)) (k : List Char)
    (h : findKey la = .ok k) : validName k = true := by
  unfold findKey at h
  dsimp only at h
  split at h
  · injection h with h2
    rw [← h2]
    assumption
  · exact Except.noConfusion h

/-- A declaration produced by a line always carries a valid key. -/
theorem processLine_declared_validName (l : String) (v : ParsedEnvVar)
    (h : processLine l = .declared v) : validName v.key.data = true := by
  unfold processLine at h
  dsimp only at h
  by_cases h1 : (trimChars l.data).isEmpty = true
  · rw [if_pos h1] at h
    exact LineOutcome.noConfusion h
  · rw [if_neg h1] at h
    by_cases h2 : (trimChars l.data).head? = some '#'
    · rw [if_pos h2] at h
      exact LineOutcome.noConfusion h
    · rw [if_neg h2] at h
      by_cases h3 : (!matchesShape (trimChars l.data)) = true
      · rw [if_pos h3] at h
        exact LineOutcome.noConfusion h
      · rw [if_neg h3] at h
        rcases hk : findKey (splitOnChar ' ' (trimChars l.data)) with m | key
        · rw [hk] at h
          exact LineOutcome.noConfusion h
        · rw [hk] at h
          rcases ht : typeImplication (String.mk (findVarType (trimChars l.data)))
              (String.mk (findValue (trimChars l.data))) with m | w
          · rw [ht] at h
            exact LineOutcome.noConfusion h
          · rw [ht] at h
            injection h with h4
            rw [← h4]
            exact findKey_ok_valid _ key hk

/-- Membership after an insert: the new declaration or an old one. -/
theorem mem_setFirstMatch (x v : ParsedEnvVar) :
    ∀ vars : List ParsedEnvVar, x ∈ setFirstMatch vars v → x = v ∨ x ∈ vars
  | [], h => by simp [setFirstMatch] at h
  | w :: rest, h => by
    unfold setFirstMatch at h
    split at h
    · rcases List.mem_cons.mp h with h2 | h2
      · exact Or.inl h2
      · exact Or.inr (List.mem_cons_of_mem w h2)
    · rcases List.mem_cons.mp h with h2 | h2
      · exact Or.inr (h2 ▸ List.mem_cons_self w rest)
      · rcases mem_setFirstMatch x v rest h2 with h3 | h3
        · exact Or.inl h3
        · exact Or.inr (List.mem_cons_of_mem w h3)

/-- Membership in the store after the duplicate-key policy ran. -/
theorem mem_insertVar (x v : ParsedEnvVar) (vars : List ParsedEnvVar)
    (h : x ∈ (insertVar vars v).1) : x = v ∨ x ∈ vars := by
  unfold insertVar at h
  split at h
  · exact mem_setFirstMatch x v vars h
  · rcases List.mem_append.mp h with h2 | h2
    · exact Or.inr h2
    · exact Or.inl (List.mem_singleton.mp h2)

/-- Key validity is preserved through the whole line loop. -/
theorem parseLinesAux_keys_valid :
    ∀ (lines : List String) (n : Nat) (vars : List ParsedEnvVar) (ws : List Warning)
      (res : ParseResult),
    (∀ v ∈ vars, validName v.key.data = true) →
    parseLinesAux lines n vars ws = .ok res →
    ∀ v ∈ res.envVars, validName v.key.data = true
  | [], n, vars, ws, res, hinv, h => by
    unfold parseLinesAux at h
    injection h with h2
    rw [← h2]
    exact hinv
  | l :: rest, n, vars, ws, res, hinv, h => by
    unfold parseLinesAux at h
    split at h
    · exact parseLinesAux_keys_valid rest (n + 1) vars ws res hinv h
    · exact parseLinesAux_keys_valid rest (n + 1) vars _ res hinv h
    · exact Except.noConfusion h
    · next v hpl =>
      split at h
      · next vars2 hins =>
        refine parseLinesAux_keys_valid rest (n + 1) vars2 _ res ?_ h
        intro x hx
        rcases mem_insertVar x v vars (by rw [hins]; exact hx) with h2 | h2
        · rw [h2]
          exact processLine_declared_validName l v hpl
        · exact hinv x h2
      · next vars2 hins =>
        refine parseLinesAux_keys_valid rest (n + 1) vars2 _ res ?_ h
        intro x hx
        rcases mem_insertVar x v vars (by rw [hins]; exact hx) with h2 | h2
        · rw [h2]
          exact processLine_declared_validName l v hpl
        · exact hinv x h2

/-- C9: every key stored by a successful parse matches the identifier regex;
    a shape-matching line with an invalid name aborts the parse, so an
    invalid key is never stored, while a name starting with an underscore
    succeeds. -/
theorem C9_identifier_validity :
    (∀ (lines : List String) (res : ParseResult), parseLines lines = .ok res →
      ∀ v ∈ res.envVars, validName v.key.data = true) ∧
    parseLines ["STRING 123bad=test"] =
      .error ⟨1, "Invalid or missing variable name: 123bad"⟩ ∧
    parseLines ["STRING _ok123=test"] =
      .ok ⟨[⟨"_ok123", "STRING", .str "test"⟩], []⟩ := by
  refine ⟨?_, rfl, rfl⟩
  intro lines res h
  exact parseLinesAux_keys_valid lines 0 [] [] res (by intro v hv; simp at hv) h

/-- C9 witness: the stored key of the underscore example is a valid name. -/
theorem C9_identifier_validity_witness : validName "_ok123".data = true :=
  C9_identifier_validity.1 ["STRING _ok123=test"]
    ⟨[⟨"_ok123", "STRING", .str "test"⟩], []⟩ rfl
    ⟨"_ok123", "STRING", .str "test"⟩ (List.mem_singleton.mpr rfl)

/- ------------------------------------------------------------------ -/
/- C1                                                                  -/
/- ------------------------------------------------------------------ -/

/-- Warnings already recorded survive the rest of the loop. -/
theorem parseLinesAux_warnings_mono :
    ∀ (lines : List String) (n : Nat) (vars : List ParsedEnvVar) (ws : List Warning)
      (res : ParseResult),
    parseLinesAux lines n vars ws = .ok res → ∀ w ∈ ws, w ∈ res.warnings
  | [], n, vars, ws, res, h => by
    unfold parseLinesAux at h
    injection h with h2
    rw [← h2]
    exact fun w hw => hw
  | l :: rest, n, vars, ws, res, h => by
    unfold parseLinesAux at h
    split at h
    · exact parseLinesAux_warnings_mono rest (n + 1) vars ws res h
    · intro w hw
      exact parseLinesAux_warnings_mono rest (n + 1) vars _ res h w
        (List.mem_append_left _ hw)
    · exact Except.noConfusion h
    · split at h
      · intro w hw
        exact parseLinesAux_warnings_mono rest (n + 1) _ _ res h w
          (List.mem_append_left _ hw)
      · exact parseLinesAux_warnings_mono rest (n + 1) _ ws res h

/-- The loop fails at the first failing line, with its 1-based number. -/
theorem parseLinesAux_fail :
    ∀ (lines : List String) (n : Nat) (vars : List ParsedEnvVar) (ws : List Warning)
      (i : Nat) (l m : String),
    lines[i]? = some l →
    (∀ j, j < i → ∀ l2, lines[j]? = some l2 → (processLine l2).isFailed = false) →
    processLine l = .failed m →
    parseLinesAux lines n vars ws = .error ⟨n + i + 1, m⟩
  | [], _, _, _, i, l, m, hget, _, _ => by simp at hget
  | l0 :: rest, n, vars, ws, i, l, m, hget, hprior, hfail => by
    cases i with
    | zero =>
      have hl : l0 = l := by simpa using hget
      rw [hl]
      unfold parseLinesAux
      rw [hfail]
    | succ i =>
      have hget2 : rest[i]? = some l := by simpa using hget
      have hprior0 : (processLine l0).isFailed = false :=
        hprior 0 (Nat.succ_pos i) l0 (by simp)
      have hprior2 : ∀ j, j < i → ∀ l2, rest[j]? = some l2 →
          (processLine l2).isFailed = false := by
        intro j hj l2 hjget
        exact hprior (j + 1) (Nat.succ_lt_succ hj) l2 (by simpa using hjget)
      have harith : n + 1 + i + 1 = n + (i + 1) + 1 := by omega
      unfold parseLinesAux
      cases hpl : processLine l0 with
      | skip =>
        rw [← harith]
        exact parseLinesAux_fail rest (n + 1) vars ws i l m hget2 hprior2 hfail
      | invalid =>
        rw [← harith]
        exact parseLinesAux_fail rest (n + 1) vars _ i l m hget2 hprior2 hfail
      | failed m2 =>
        rw [hpl] at hprior0
        exact Bool.noConfusion hprior0
      | declared v =>
        rcases hins : insertVar vars v with ⟨vars2, b⟩
        dsimp only
        rw [hins]
        cases b
        · rw [← harith]
          exact parseLinesAux_fail rest (n + 1) vars2 ws i l m hget2 hprior2 hfail
        · rw [← harith]
          exact parseLinesAux_fail rest (n + 1) vars2 _ i l m hget2 hprior2 hfail

/-- An invalid line leaves its skip warning in the final diagnostics. -/
theorem parseLinesAux_invalid_warn :
    ∀ (lines : List String) (n : Nat) (vars : List ParsedEnvVar) (ws : List Warning)
      (res : ParseResult) (i : Nat) (l : String),
    parseLinesAux lines n vars ws = .ok res → lines[i]? = some l →
    processLine l = .invalid → Warning.skipLine (n + i + 1) l ∈ res.warnings
  | [], _, _, _, _, i, l, _, hget, _ => by simp at hget
  | l0 :: rest, n, vars, ws, res, i, l, hok, hget, hinv => by
    cases i with
    | zero =>
      have hl : l0 = l := by simpa using hget
      rw [hl] at hok
      unfold parseLinesAux at hok
      rw [hinv] at hok
      exact parseLinesAux_warnings_mono rest (n + 1) vars _ res hok _
        (List.mem_append_right _ (List.mem_singleton.mpr rfl))
    | succ i =>
      have hget2 : rest[i]? = some l := by simpa using hget
      have harith : n + 1 + i + 1 = n + (i + 1) + 1 := by omega
      unfold parseLinesAux at hok
      rw [← harith]
      split at hok
      · exact parseLinesAux_invalid_warn rest (n + 1) vars ws res i l hok hget2 hinv
      · exact parseLinesAux_invalid_warn rest (n + 1) vars _ res i l hok hget2 hinv
      · exact Except.noConfusion hok
      · split at hok
        · exact parseLinesAux_invalid_warn rest (n + 1) _ _ res i l hok hget2 hinv
        · exact parseLinesAux_invalid_warn rest (n + 1) _ ws res i l hok hget2 hinv

/-- C1: the three-tier per-line policy. A line whose trimmed form is empty or
    starts with a hash is skipped, and silently so: the loop state is
    untouched. A non-blank, non-comment line failing the shape regex yields
    the invalid outcome, whose skip warning (with the 1-based line number and
    the line text) is in the final diagnostics while parsing continues. A
    line whose key validation or type coercion fails aborts the entire parse
    with an error carrying that line's 1-based number, provided no earlier
    line failed. -/
theorem C1_three_tier_policy :
    (∀ line : String,
      trimChars line.data = [] ∨ (trimChars line.data).head? = some '#' →
      processLine line = .skip) ∧
    (∀ line : String, trimChars line.data ≠ [] →
      (trimChars line.data).head? ≠ some '#' →
      matchesShape (trimChars line.data) = false → processLine line = .invalid) ∧
    (∀ (line : String) (ls : List String) (n : Nat) (vars : List ParsedEnvVar)
        (ws : List Warning), processLine line = .skip →
      parseLinesAux (line :: ls) n vars ws = parseLinesAux ls (n + 1) vars ws) ∧
    (∀ (lines : List String) (i : Nat) (l m : String),
      lines[i]? = some l →
      (∀ j, j < i → ∀ l2, lines[j]? = some l2 → (processLine l2).isFailed = false) →
      processLine l = .failed m →
      parseLines lines = .error ⟨i + 1, m⟩) ∧
    (∀ (lines : List String) (res : ParseResult) (i : Nat) (l : String),
      parseLines lines = .ok res → lines[i]? = some l →
      processLine l = .invalid → Warning.skipLine (i + 1) l ∈ res.warnings) := by
  refine ⟨?_, ?_, ?_, ?_, ?_⟩
  · intro line h
    rcases h with h | h
    · simp [processLine, h]
    · have hne : (trimChars line.data).isEmpty = false := by
        cases ht : trimChars line.data with
        | nil =>
          rw [ht] at h
          exact Option.noConfusion h
        | cons a b => rfl
      simp [processLine, hne, h]
  · intro line h1 h2 h3
    have hne : (trimChars line.data).isEmpty = false := by
      cases ht : trimChars line.data with
      | nil => exact absurd ht h1
      | cons a b => rfl
    simp [processLine, hne, h2, h3]
  · intro line ls n vars ws h
    simp only [parseLinesAux, h]
  · intro lines i l m hget hprior hfail
    have := parseLinesAux_fail lines 0 [] [] i l m hget hprior hfail
    rwa [Nat.zero_add] at this
  · intro lines res i l hok hget hinv
    have := parseLinesAux_invalid_warn lines 0 [] [] res i l hok hget hinv
    rwa [Nat.zero_add] at this

/-- C1 witness: a blank line and a comment skip, a malformed line is invalid
    and leaves its warning, and a coercion failure aborts with its 1-based
    line number. -/
theorem C1_three_tier_policy_witness :
    processLine "   " = .skip ∧
    processLine "# note" = .skip ∧
    processLine "garbage line" = .invalid ∧
    parseLines ["# c", "garbage line", "NUMBER X=abc"] =
      .error ⟨3, "Invalid number value: abc"⟩ ∧
    Warning.skipLine 2 "garbage line" ∈
      (⟨[⟨"A", "STRING", .str "x"⟩], [.skipLine 2 "garbage line"]⟩ :
        ParseResult).warnings := by
  refine ⟨?_, ?_, ?_, ?_, ?_⟩
  · exact C1_three_tier_policy.1 "   " (Or.inl (by decide))
  · exact C1_three_tier_policy.1 "# note" (Or.inr (by decide))
  · exact C1_three_tier_policy.2.1 "garbage line" (by decide) (by decide) (by decide)
  · refine C1_three_tier_policy.2.2.2.1 ["# c", "garbage line", "NUMBER X=abc"] 2
      "NUMBER X=abc" "Invalid number value: abc" rfl ?_ rfl
    intro j hj l2 heq
    interval_cases j <;> simp at heq <;> rw [← heq] <;> rfl
  · exact C1_three_tier_policy.2.2.2.2 ["STRING A=x", "garbage line"]
      ⟨[⟨"A", "STRING", .str "x"⟩], [.skipLine 2 "garbage line"]⟩ 1 "garbage line"
      rfl rfl rfl

/- ------------------------------------------------------------------ -/
/- C2                                                                  -/
/- ------------------------------------------------------------------ -/

/-- find? distributes over append. -/
theorem find?_append {α : Type} (p : α → Bool) :
    ∀ l1 l2 : List α, (l1 ++ l2).find? p =
      (match l1.find? p with
       | some x => some x
       | none => l2.find? p)
  | [], l2 => rfl
  | a :: l1, l2 => by
    rw [List.cons_append]
    cases hp : p a with
    | true => rw [List.find?_cons_of_pos _ hp, List.find?_cons_of_pos _ hp]
    | false =>
      rw [List.find?_cons_of_neg _ (by simp [hp]), List.find?_cons_of_neg _ (by simp [hp])]
      exact find?_append p l1 l2

/-- getLast? ignores a cons onto a list that already has a last element. -/
theorem getLast?_cons_of_some {α : Type} (a w : α) :
    ∀ l : List α, l.getLast? = some w → (a :: l).getLast? = some w
  | [], h => Option.noConfusion h
  | b :: l, h => by rw [List.getLast?_cons_cons]; exact h

/-- An overwrite of an existing key leaves the key sequence unchanged. -/
theorem keysOf_setFirstMatch (v : ParsedEnvVar) :
    ∀ vars : List ParsedEnvVar, vars.any (fun w => w.key = v.key) = true →
      keysOf (setFirstMatch vars v) = keysOf vars
  | [], h => by simp at h
  | w :: rest, h => by
    unfold setFirstMatch
    by_cases hw : w.key = v.key
    · rw [if_pos hw]
      simp [keysOf, hw]
    · rw [if_neg hw]
      have hrest : rest.any (fun x => x.key = v.key) = true := by
        rcases List.any_eq_true.mp h with ⟨x, hx, hpx⟩
        rcases List.mem_cons.mp hx with h2 | h2
        · rw [h2] at hpx
          simp at hpx
          exact absurd hpx hw
        · exact List.any_eq_true.mpr ⟨x, h2, hpx⟩
      show w.key :: keysOf (setFirstMatch rest v) = w.key :: keysOf rest
      rw [keysOf_setFirstMatch v rest hrest]

/-- Appending a fresh key appends it to the key sequence. -/
theorem keysOf_append_one (vars : List ParsedEnvVar) (v : ParsedEnvVar) :
    keysOf (vars ++ [v]) = keysOf vars ++ [v.key] := by
  simp [keysOf]

/-- After an overwrite the overwritten key maps to the new declaration. -/
theorem find?_setFirstMatch_self (v : ParsedEnvVar) :
    ∀ vars : List ParsedEnvVar, vars.any (fun w => w.key = v.key) = true →
      (setFirstMatch vars v).find? (fun w => w.key = v.key) = some v
  | [], h => by simp at h
  | w :: rest, h => by
    unfold setFirstMatch
    by_cases hw : w.key = v.key
    · rw [if_pos hw]
      rw [List.find?_cons_of_pos _ (by simp)]
    · rw [if_neg hw]
      have hrest : rest.any (fun x => x.key = v.key) = true := by
        rcases List.any_eq_true.mp h with ⟨x, hx, hpx⟩
        rcases List.mem_cons.mp hx with h2 | h2
        · rw [h2] at hpx
          simp at hpx
          exact absurd hpx hw
        · exact List.any_eq_true.mpr ⟨x, h2, hpx⟩
      rw [List.find?_cons_of_neg _ (by simp [hw])]
      exact find?_setFirstMatch_self v rest hrest

/-- Inserting a declaration makes its key map to it. -/
theorem find?_insertVar_self (vars : List ParsedEnvVar) (v : ParsedEnvVar) :
    (insertVar vars v).1.find? (fun w => w.key = v.key) = some v := by
  unfold insertVar
  by_cases hany : vars.any (fun w => w.key = v.key) = true
  · rw [if_pos hany]
    exact find?_setFirstMatch_self v vars hany
  · rw [if_neg hany]
    dsimp only
    rw [find?_append]
    have hnone : vars.find? (fun w => w.key = v.key) = none := by
      rw [List.find?_eq_none]
      intro x hx
      simp only [decide_eq_true_eq]
      intro hkey
      exact hany (List.any_eq_true.mpr ⟨x, hx, by simp [hkey]⟩)
    rw [hnone]
    rw [List.find?_cons_of_pos _ (by simp)]

/-- An overwrite never changes the entry found for a different key. -/
theorem find?_setFirstMatch_other (v : ParsedEnvVar) (K : String) (hK : v.key ≠ K) :
    ∀ vars : List ParsedEnvVar,
      (setFirstMatch vars v).find? (fun w => w.key = K) =
        vars.find? (fun w => w.key = K)
  | [] => rfl
  | w :: rest => by
    unfold setFirstMatch
    by_cases hw : w.key = v.key
    · rw [if_pos hw]
      have hv : ((fun w : ParsedEnvVar => decide (w.key = K)) v) = false := by
        simp [hK]
      have hwK : ((fun w : ParsedEnvVar => decide (w.key = K)) w) = false := by
        simp [hw ▸ hK]
      rw [List.find?_cons_of_neg _ (by simp [hK]),
        List.find?_cons_of_neg _ (by simp [hw, hK])]
    · rw [if_neg hw]
      by_cases hwp : w.key = K
      · rw [List.find?_cons_of_pos _ (by simp [hwp]),
          List.find?_cons_of_pos _ (by simp [hwp])]
      · rw [List.find?_cons_of_neg _ (by simp [hwp]),
          List.find?_cons_of_neg _ (by simp [hwp])]
        exact find?_setFirstMatch_other v K hK rest

/-- An insert never changes the entry found for a different key. -/
theorem find?_insertVar_other (vars : List ParsedEnvVar) (v : ParsedEnvVar) (K : String)
    (hK : v.key ≠ K) :
    (insertVar vars v).1.find? (fun w => w.key = K) =
      vars.find? (fun w => w.key = K) := by
  unfold insertVar
  by_cases hany : vars.any (fun w => w.key = v.key) = true
  · rw [if_pos hany]
    exact find?_setFirstMatch_other v K hK vars
  · rw [if_neg hany]
    dsimp only
    rw [find?_append]
    cases hfind : vars.find? (fun w => w.key = K) with
    | some x => rfl
    | none =>
      rw [List.find?_cons_of_neg _ (by simp [hK])]
      rfl

/-- First-occurrence deduplication produces no duplicates. -/
theorem dedupFirst_nodup : ∀ l : List String, (dedupFirst l).Nodup
  | [] => List.nodup_nil
  | k :: rest => by
    unfold dedupFirst
    refine List.Nodup.cons ?_ ?_
    · intro hmem
      have := List.of_mem_filter hmem
      simp at this
    · exact (dedupFirst_nodup rest).filter _

/-- First-occurrence deduplication keeps exactly the members. -/
theorem mem_dedupFirst (k : String) : ∀ l : List String, k ∈ dedupFirst l ↔ k ∈ l
  | [] => Iff.rfl
  | a :: rest => by
    unfold dedupFirst
    constructor
    · intro h
      rcases List.mem_cons.mp h with h2 | h2
      · exact h2 ▸ List.mem_cons_self a rest
      · exact List.mem_cons_of_mem a ((mem_dedupFirst k rest).mp (List.mem_of_mem_filter h2))
    · intro h
      rcases List.mem_cons.mp h with h2 | h2
      · exact h2 ▸ List.mem_cons_self a _
      · by_cases hak : k = a
        · exact hak ▸ List.mem_cons_self a _
        · refine List.mem_cons_of_mem a (List.mem_filter.mpr ?_)
          exact ⟨(mem_dedupFirst k rest).mpr h2, by simp [hak]⟩

/-- Unfolding lemma for dedupFirst on a cons. -/
theorem dedupFirst_cons (k : String) (rest : List String) :
    dedupFirst (k :: rest) = k :: (dedupFirst rest).filter (fun x => x ≠ k) := rfl

/-- The key sequence of the finished store: the keys of the initial store
    followed by the first occurrences of the new keys not already present. -/
theorem keysOf_storeFold :
    ∀ (ds : List ParsedEnvVar) (vars : List ParsedEnvVar),
      keysOf (storeFold vars ds) =
        keysOf vars ++
          (dedupFirst (keysOf ds)).filter (fun k => !(keysOf vars).contains k)
  | [], vars => by simp [storeFold, dedupFirst, keysOf]
  | v :: ds, vars => by
    have hstep : storeFold vars (v :: ds) = storeFold (insertVar vars v).1 ds := rfl
    rw [hstep, keysOf_storeFold ds (insertVar vars v).1]
    by_cases hany : vars.any (fun w => w.key = v.key) = true
    · have hkeys : keysOf (insertVar vars v).1 = keysOf vars := by
        unfold insertVar
        rw [if_pos hany]
        exact keysOf_setFirstMatch v vars hany
      rw [hkeys]
      have hmem : v.key ∈ keysOf vars := by
        rcases List.any_eq_true.mp hany with ⟨x, hx, hpx⟩
        simp only [decide_eq_true_eq] at hpx
        exact hpx ▸ List.mem_map_of_mem ParsedEnvVar.key hx
      have hhead : (keysOf vars).contains v.key = true := List.elem_eq_true_of_mem hmem
      show keysOf vars ++ _ = keysOf vars ++
        (dedupFirst (v.key :: keysOf ds)).filter (fun k => !(keysOf vars).contains k)
      congr 1
      rw [dedupFirst_cons, List.filter_cons]
      simp only [hhead, Bool.not_true, Bool.false_eq_true, if_false]
      rw [List.filter_filter]
      refine List.filter_congr ?_
      intro x _
      by_cases hxv : (keysOf vars).contains x = true
      · have hxmem : x ∈ keysOf vars := List.mem_of_elem_eq_true hxv
        simp only [hxv, Bool.not_true, Bool.false_and, Bool.and_false]
      · have hxne : x ≠ v.key := by
          intro h
          rw [h] at hxv
          exact hxv hhead
        simp [hxv, hxne]
    · have hins : (insertVar vars v).1 = vars ++ [v] := by
        unfold insertVar
        rw [if_neg hany]
      have hnmem : v.key ∉ keysOf vars := by
        intro hmem
        rcases List.mem_map.mp hmem with ⟨x, hx, hkx⟩
        exact hany (List.any_eq_true.mpr ⟨x, hx, by simp [hkx]⟩)
      have hhead : (keysOf vars).contains v.key = false := by
        rcases hc : (keysOf vars).contains v.key with h | h
        · rfl
        · exact absurd (List.mem_of_elem_eq_true hc) hnmem
      rw [hins, keysOf_append_one]
      show (keysOf vars ++ [v.key]) ++
          (dedupFirst (keysOf ds)).filter
            (fun k => !(keysOf vars ++ [v.key]).contains k) =
        keysOf vars ++
          (dedupFirst (v.key :: keysOf ds)).filter (fun k => !(keysOf vars).contains k)
      rw [dedupFirst_cons, List.filter_cons]
      simp only [hhead, Bool.not_false, if_true]
      rw [List.append_assoc, List.singleton_append]
      congr 1
      congr 1
      rw [List.filter_filter]
      refine List.filter_congr ?_
      intro x _
      by_cases hx1 : x = v.key
      · subst hx1
        have hc : (keysOf vars ++ [v.key]).contains v.key = true :=
          List.elem_eq_true_of_mem (List.mem_append_right _ (List.mem_singleton.mpr rfl))
        simp [hc]
      · by_cases hx2 : x ∈ keysOf vars
        · have hc : (keysOf vars ++ [v.key]).contains x = true :=
            List.elem_eq_true_of_mem (List.mem_append_left _ hx2)
          have hc2 : (keysOf vars).contains x = true := List.elem_eq_true_of_mem hx2
          simp [hc, hc2, hx1]
        · have hnm : x ∉ keysOf vars ++ [v.key] := by
            intro hmem
            rcases List.mem_append.mp hmem with h2 | h2
            · exact hx2 h2
            · exact hx1 (List.mem_singleton.mp h2)
          have hc : (keysOf vars ++ [v.key]).contains x = false := by
            rcases hcc : (keysOf vars ++ [v.key]).contains x with h2 | h2
            · rfl
            · exact absurd (List.mem_of_elem_eq_true hcc) hnm
          have hc2 : (keysOf vars).contains x = false := by
            rcases hcc : (keysOf vars).contains x with h2 | h2
            · rfl
            · exact absurd (List.mem_of_elem_eq_true hcc) hx2
          simp [hc, hc2, hx1]

/-- The entry found for a key in the finished store: the last declaration of
    that key in the stream, or whatever the initial store held. -/
theorem find?_storeFold :
    ∀ (ds : List ParsedEnvVar) (vars : List ParsedEnvVar) (K : String),
      (storeFold vars ds).find? (fun w => w.key = K) =
        (match (ds.filter (fun w => w.key = K)).getLast? with
         | some w => some w
         | none => vars.find? (fun w => w.key = K))
  | [], vars, K => rfl
  | v :: ds, vars, K => by
    have hstep : storeFold vars (v :: ds) = storeFold (insertVar vars v).1 ds := rfl
    rw [hstep, find?_storeFold ds (insertVar vars v).1 K]
    by_cases hvK : v.key = K
    · have hfil : (v :: ds).filter (fun w => w.key = K) =
          v :: ds.filter (fun w => w.key = K) := by
        rw [List.filter_cons, if_pos (by simp [hvK])]
      rw [hfil]
      cases hlast : (ds.filter (fun w => w.key = K)).getLast? with
      | some w =>
        rw [getLast?_cons_of_some v w _ hlast]
      | none =>
        have hnil : ds.filter (fun w => w.key = K) = [] := by
          cases hc : ds.filter (fun w => w.key = K) with
          | nil => rfl
          | cons a b =>
            rw [hc] at hlast
            rcases List.getLast?_eq_none_iff.mp hlast
        rw [hnil]
        show (insertVar vars v).1.find? (fun w => w.key = K) = some v
        rw [← hvK]
        exact find?_insertVar_self vars v
    · have hfil : (v :: ds).filter (fun w => w.key = K) =
          ds.filter (fun w => w.key = K) := by
        rw [List.filter_cons, if_neg (by simp [hvK])]
      rw [hfil, find?_insertVar_other vars v K hvK]

/-- Counting one appended warning. -/
theorem countDup_append_one (K : String) (ws : List Warning) (w : Warning) :
    countDup K (ws ++ [w]) = countDup K ws + (if w = .duplicate K then 1 else 0) := by
  unfold countDup
  rw [List.filter_append, List.length_append]
  congr 1
  rw [List.filter_cons]
  by_cases hw : w = .duplicate K
  · rw [if_pos (by simp [hw]), if_pos hw]
    rfl
  · rw [if_neg (by simp [hw]), if_neg hw]
    rfl

/-- The membership test of insertVar, phrased on keys. -/
theorem any_key_iff (vars : List ParsedEnvVar) (k : String) :
    vars.any (fun w => w.key = k) = true ↔ k ∈ keysOf vars := by
  rw [List.any_eq_true]
  constructor
  · rintro ⟨x, hx, hpx⟩
    simp only [decide_eq_true_eq] at hpx
    exact hpx ▸ List.mem_map_of_mem ParsedEnvVar.key hx
  · intro h
    rcases List.mem_map.mp h with ⟨x, hx, hkx⟩
    exact ⟨x, hx, by simp [hkx]⟩

/-- Presence of a key after an insert: the old test, or the inserted key. -/
theorem any_key_insertVar (vars : List ParsedEnvVar) (v : ParsedEnvVar) (K : String) :
    (insertVar vars v).1.any (fun w => w.key = K) =
      (vars.any (fun w => w.key = K) || decide (v.key = K)) := by
  unfold insertVar
  by_cases hany : vars.any (fun w => w.key = v.key) = true
  · rw [if_pos hany]
    dsimp only
    have hkeys := keysOf_setFirstMatch v vars hany
    have h2 : (setFirstMatch vars v).any (fun w => w.key = K) =
        vars.any (fun w => w.key = K) := by
      cases h3 : vars.any (fun w => w.key = K) with
      | true =>
        rw [(any_key_iff _ K).mpr ?_]
        rw [hkeys]
        exact (any_key_iff vars K).mp h3
      | false =>
        cases h4 : (setFirstMatch vars v).any (fun w => w.key = K) with
        | false => rfl
        | true =>
          have h5 := (any_key_iff _ K).mp h4
          rw [hkeys] at h5
          have h6 := (any_key_iff vars K).mpr h5
          rw [h3] at h6
          exact Bool.noConfusion h6
    rw [h2]
    by_cases hvK : v.key = K
    · have h7 : vars.any (fun w => w.key = K) = true := by
        rw [← hvK]
        exact hany
      rw [h7]
      simp [hvK]
    · simp [hvK]
  · rw [if_neg hany]
    dsimp only
    rw [List.any_append]
    simp

/-- Inverting a duplicate-reporting insert. -/
theorem insertVar_snd_true (vars : List ParsedEnvVar) (v : ParsedEnvVar)
    (vars2 : List ParsedEnvVar) (h : insertVar vars v = (vars2, true)) :
    vars.any (fun w => w.key = v.key) = true ∧ vars2 = setFirstMatch vars v := by
  unfold insertVar at h
  split at h
  · next hc =>
    injection h with h1 h2
    exact ⟨hc, h1.symm⟩
  · injection h with h1 h2
    exact Bool.noConfusion h2

/-- Inverting a fresh-key insert. -/
theorem insertVar_snd_false (vars : List ParsedEnvVar) (v : ParsedEnvVar)
    (vars2 : List ParsedEnvVar) (h : insertVar vars v = (vars2, false)) :
    vars.any (fun w => w.key = v.key) = false ∧ vars2 = vars ++ [v] := by
  unfold insertVar at h
  split at h
  · injection h with h1 h2
    exact Bool.noConfusion h2
  · next hc =>
    injection h with h1 h2
    refine ⟨?_, h1.symm⟩
    cases hb : vars.any (fun w => w.key = v.key) with
    | false => rfl
    | true => exact absurd hb hc

/-- The loop's result: the store is the fold of the per-line declarations
    over the initial store, and the duplicate warnings for a key count
    exactly the overwrites of that key. -/
theorem parseLinesAux_store_warns :
    ∀ (lines : List String) (n : Nat) (vars : List ParsedEnvVar) (ws : List Warning)
      (res : ParseResult) (K : String),
    parseLinesAux lines n vars ws = .ok res →
    res.envVars = storeFold vars (declsOf lines) ∧
    countDup K res.warnings = countDup K ws + overwriteCount vars (declsOf lines) K
  | [], n, vars, ws, res, K, h => by
    unfold parseLinesAux at h
    injection h with h2
    rw [← h2]
    refine ⟨rfl, ?_⟩
    have hoc : overwriteCount vars (declsOf []) K = 0 := by
      unfold overwriteCount
      split <;> rfl
    rw [hoc]
    show countDup K ws = countDup K ws + 0
    omega
  | l :: rest, n, vars, ws, res, K, h => by
    unfold parseLinesAux at h
    split at h
    · next hpl =>
      have hdecl : declsOf (l :: rest) = declsOf rest := by
        simp [declsOf, List.filterMap_cons, hpl]
      obtain ⟨ih1, ih2⟩ := parseLinesAux_store_warns rest (n + 1) vars ws res K h
      rw [hdecl]
      exact ⟨ih1, ih2⟩
    · next hpl =>
      have hdecl : declsOf (l :: rest) = declsOf rest := by
        simp [declsOf, List.filterMap_cons, hpl]
      obtain ⟨ih1, ih2⟩ := parseLinesAux_store_warns rest (n + 1) vars _ res K h
      rw [hdecl]
      refine ⟨ih1, ?_⟩
      rw [ih2, countDup_append_one]
      have : (if (Warning.skipLine (n + 1) l = Warning.duplicate K) then 1 else 0) = 0 := by
        rw [if_neg]
        intro hcon
        exact Warning.noConfusion hcon
      rw [this]
      omega
    · exact Except.noConfusion h
    · next v hpl =>
      have hdecl : declsOf (l :: rest) = v :: declsOf rest := by
        simp [declsOf, List.filterMap_cons, hpl]
      have hstep : storeFold vars (v :: declsOf rest) =
          storeFold (insertVar vars v).1 (declsOf rest) := rfl
      split at h
      · next vars2 hins =>
        obtain ⟨hanyv, hvars2⟩ := insertVar_snd_true vars v vars2 hins
        have hins1 : (insertVar vars v).1 = vars2 := by rw [hins]
        have hany2 : vars2.any (fun w => w.key = K) =
            (vars.any (fun w => w.key = K) || decide (v.key = K)) := by
          rw [← hins1]
          exact any_key_insertVar vars v K
        obtain ⟨ih1, ih2⟩ := parseLinesAux_store_warns rest (n + 1) vars2 _ res K h
        refine ⟨?_, ?_⟩
        · rw [ih1, hdecl, hstep, hins1]
        · rw [ih2, hdecl, countDup_append_one]
          have hdupif : (if (Warning.duplicate v.key = Warning.duplicate K) then 1 else 0) =
              (if v.key = K then (1 : Nat) else 0) := by
            by_cases hvK : v.key = K <;> simp [hvK]
          rw [hdupif]
          unfold overwriteCount
          rw [hany2, List.filter_cons]
          by_cases hvK : v.key = K
          · have hvarsK : vars.any (fun w => w.key = K) = true := by
              rw [← hvK]
              exact hanyv
            simp [hvarsK, hvK]
            omega
          · have hdf : decide (v.key = K) = false := decide_eq_false hvK
            simp only [hdf, Bool.or_false, Bool.false_eq_true, if_false]
            by_cases hvarsK : vars.any (fun w => w.key = K) = true
            · simp [hvarsK, hvK]
            · have hvarsK2 : vars.any (fun w => w.key = K) = false := by
                cases hb : vars.any (fun w => w.key = K) with
                | false => rfl
                | true => exact absurd hb hvarsK
              simp [hvarsK2, hvK]
      · next vars2 hins =>
        obtain ⟨hanyv, hvars2⟩ := insertVar_snd_false vars v vars2 hins
        have hins1 : (insertVar vars v).1 = vars2 := by rw [hins]
        have hany2 : vars2.any (fun w => w.key = K) =
            (vars.any (fun w => w.key = K) || decide (v.key = K)) := by
          rw [← hins1]
          exact any_key_insertVar vars v K
        obtain ⟨ih1, ih2⟩ := parseLinesAux_store_warns rest (n + 1) vars2 ws res K h
        refine ⟨?_, ?_⟩
        · rw [ih1, hdecl, hstep, hins1]
        · rw [ih2, hdecl]
          unfold overwriteCount
          rw [hany2, List.filter_cons]
          by_cases hvK : v.key = K
          · have hvarsK : vars.any (fun w => w.key = K) = false := by
              rw [← hvK]
              exact hanyv
            simp [hvarsK, hvK]
          · have hdf : decide (v.key = K) = false := decide_eq_false hvK
            simp only [hdf, Bool.or_false, Bool.false_eq_true, if_false]

/-- With distinct keys, a present key owns exactly one entry. -/
theorem filter_key_length_one (K : String) :
    ∀ l : List ParsedEnvVar, (keysOf l).Nodup → K ∈ keysOf l →
      (l.filter (fun v => v.key = K)).length = 1
  | [], _, hkm => by simp [keysOf] at hkm
  | w :: rest, hnd, hkm => by
    have hnd2 := List.nodup_cons.mp hnd
    by_cases hw : w.key = K
    · have hnone : rest.filter (fun v => v.key = K) = [] := by
        rw [List.filter_eq_nil_iff]
        intro x hx
        simp only [decide_eq_true_eq]
        intro hxK
        exact hnd2.1 (hw ▸ hxK ▸ List.mem_map_of_mem ParsedEnvVar.key hx)
      rw [List.filter_cons, if_pos (by simp [hw]), hnone]
      rfl
    · have hkm2 : K ∈ keysOf rest := by
        rcases List.mem_cons.mp hkm with h2 | h2
        · exact absurd h2.symm hw
        · exact h2
      rw [List.filter_cons, if_neg (by simp [hw])]
      exact filter_key_length_one K rest hnd2.2 hkm2

/-- C2: under a successful parse in which a key is declared more than once,
    the store holds exactly one entry for that key, equal to its last
    declaration; the key sequence of the store is the first-occurrence order
    of the declaration stream, so an overwritten key keeps its original
    position; one duplicate warning is recorded per overwrite; and the config
    entry point succeeds identically in strict and non-strict mode. -/
theorem C2_duplicate_policy :
    ∀ (lines : List String) (res : ParseResult) (K : String),
      parseLines lines = .ok res →
      2 ≤ ((declsOf lines).filter (fun v => v.key = K)).length →
      (res.envVars.filter (fun v => v.key = K)).length = 1 ∧
      res.envVars.find? (fun v => v.key = K) =
        ((declsOf lines).filter (fun v => v.key = K)).getLast? ∧
      keysOf res.envVars = dedupFirst (keysOf (declsOf lines)) ∧
      countDup K res.warnings =
        ((declsOf lines).filter (fun v => v.key = K)).length - 1 ∧
      (∀ strict : Bool, configLines strict lines =
        .ok (res.envVars.foldl (fun acc v => jsObjInsert acc v.key v.value) [])) := by
  intro lines res K hok hcount
  obtain ⟨hstore, hwarn⟩ := parseLinesAux_store_warns lines 0 [] [] res K hok
  have hkeys : keysOf res.envVars = dedupFirst (keysOf (declsOf lines)) := by
    rw [hstore, keysOf_storeFold]
    simp [keysOf]
  have hne : (declsOf lines).filter (fun v => v.key = K) ≠ [] := by
    intro h
    rw [h] at hcount
    simp at hcount
  have hfind : res.envVars.find? (fun v => v.key = K) =
      ((declsOf lines).filter (fun v => v.key = K)).getLast? := by
    rw [hstore, find?_storeFold]
    cases hg : ((declsOf lines).filter (fun v => v.key = K)).getLast? with
    | some w => rfl
    | none => exact absurd (List.getLast?_eq_none_iff.mp hg) hne
  have hmemK : K ∈ keysOf res.envVars := by
    obtain ⟨w, hg⟩ : ∃ w, ((declsOf lines).filter (fun v => v.key = K)).getLast? = some w := by
      cases hg : ((declsOf lines).filter (fun v => v.key = K)).getLast? with
      | some w => exact ⟨w, rfl⟩
      | none => exact absurd (List.getLast?_eq_none_iff.mp hg) hne
    have hfw : res.envVars.find? (fun v => v.key = K) = some w := by rw [hfind, hg]
    have hwmem : w ∈ res.envVars := List.mem_of_find?_eq_some hfw
    have hwkey : w.key = K := by
      have := List.find?_some hfw
      simpa using this
    exact hwkey ▸ List.mem_map_of_mem ParsedEnvVar.key hwmem
  refine ⟨?_, hfind, hkeys, ?_, ?_⟩
  · exact filter_key_length_one K res.envVars (hkeys ▸ dedupFirst_nodup _) hmemK
  · rw [hwarn]
    have hoc : overwriteCount [] (declsOf lines) K =
        ((declsOf lines).filter (fun v => v.key = K)).length - 1 := by
      unfold overwriteCount
      simp
    rw [hoc]
    have h0 : countDup K ([] : List Warning) = 0 := rfl
    rw [h0]
    omega
  · intro strict
    unfold configLines
    rw [hok]

/-- C2 witness: STRING NAME=First followed by STRING NAME=Second stores only
    the second declaration and records one duplicate warning. -/
theorem C2_duplicate_policy_witness :
    (⟨[⟨"NAME", "STRING", .str "Second"⟩], [.duplicate "NAME"]⟩ : ParseResult).envVars.find?
        (fun v => v.key = "NAME") =
      ((declsOf ["STRING NAME=First", "STRING NAME=Second"]).filter
        (fun v => v.key = "NAME")).getLast? ∧
    countDup "NAME" [Warning.duplicate "NAME"] =
      ((declsOf ["STRING NAME=First", "STRING NAME=Second"]).filter
        (fun v => v.key = "NAME")).length - 1 := by
  have h := C2_duplicate_policy ["STRING NAME=First", "STRING NAME=Second"]
    ⟨[⟨"NAME", "STRING", .str "Second"⟩], [.duplicate "NAME"]⟩ "NAME" rfl (by decide)
  exact ⟨h.2.1, h.2.2.2.1⟩

end STEnv
